import Mathlib

/-!
# Verification of the netpulse scan core

Shallow embedding of the scan pipeline of `netpulse` (`src-tauri/src`):
the progress throttle (`probe/scan/progress.rs`), the TCP/QUIC port
scanners (`probe/scan/tcp.rs`, `probe/scan/quic.rs`), the ICMP host
scanner (`probe/scan/icmp.rs`), the target resolver
(`net/dns/mod.rs::resolve_hosts`) and the concurrency tuner
(`probe/scan/tuner.rs`).

Conventions of the embedding:
* Machine integers (`u32`, `u64`, `usize`, `u16`) are modelled as `Nat`;
  the counters involved never overflow in the modelled executions
  (`done` is bounded by the item count of a single scan).
* `Instant` timestamps are modelled as `Nat` milliseconds on a monotone
  clock; `Instant::elapsed` becomes truncated subtraction, which agrees
  with the saturating behaviour of a monotone clock.
* Asynchronous pipelines (`buffer_unordered` streams) are determinised:
  tasks complete in input order.  None of the verified properties
  depends on completion order.
* Fallible I/O (socket creation, connect, DNS lookup, the service
  detector) is abstracted into outcome parameters that the embedded
  functions consume exactly where the source consumes the I/O result.
-/

namespace Netpulse

/-! ## Progress throttle — `probe/scan/progress.rs` -/

/-- State of `ThrottledProgress` (progress.rs lines 7–20).
`total`, `done`, `last_emitted`, `step` are `u32` counters; `last_emit_at`
is an `Instant` (ms on a monotone clock); `min_interval` a `Duration` in ms. -/
structure ThrottledProgress where
  total : Nat
  done : Nat
  last_emitted : Nat
  last_emit_at : Nat
  min_interval : Nat
  step : Nat
  deriving Repr, DecidableEq

/-- Model of `ThrottledProgress::new` (progress.rs lines 23–36): `step = (total / 100).max(1)`,
counters start at 0, the timestamp starts at the construction time `t0`,
`min_interval` is 80 ms. -/
def ThrottledProgress.new (total : Nat) (t0 : Nat) : ThrottledProgress :=
  { total := total
    done := 0
    last_emitted := 0
    last_emit_at := t0
    min_interval := 80
    step := max (total / 100) 1 }

/-- Model of `ThrottledProgress::on_advance` (progress.rs lines 39–65), with the current
time `now` passed explicitly.  Returns the new state together with the
`(done, should_emit)` pair the source returns.  `done.saturating_sub(last)`
is `Nat` subtraction; `last_ts.elapsed()` is `now - last_emit_at`; the `||`
of the two boolean flags is disjunction. -/
def ThrottledProgress.on_advance (s : ThrottledProgress) (now : Nat) :
    ThrottledProgress × Nat × Bool :=
  let done := s.done + 1
  if done ≥ s.total then
    ({ s with done := done, last_emitted := done }, done, true)
  else
    let advanced_enough := done - s.last_emitted ≥ s.step
    let elapsed := now - s.last_emit_at
    let time_ok := elapsed ≥ s.min_interval
    if advanced_enough ∨ time_ok then
      ({ s with done := done, last_emitted := done, last_emit_at := now }, done, true)
    else
      ({ s with done := done }, done, false)

/-- Run a sequence of `on_advance` calls, the `k`-th at time `ts.get k`,
starting from state `s`; returns the final state. -/
def ThrottledProgress.run (s : ThrottledProgress) (ts : List Nat) : ThrottledProgress :=
  ts.foldl (fun s t => (s.on_advance t).1) s

lemma ThrottledProgress.run_nil (s : ThrottledProgress) : s.run [] = s := rfl

lemma ThrottledProgress.run_cons (s : ThrottledProgress) (t : Nat) (ts : List Nat) :
    s.run (t :: ts) = ((s.on_advance t).1).run ts := rfl

/-- The function `on_advance` never changes `total`, `min_interval` or `step`, and always
increments `done` by one. -/
lemma ThrottledProgress.on_advance_fields (s : ThrottledProgress) (now : Nat) :
    ((s.on_advance now).1.total = s.total ∧
      (s.on_advance now).1.min_interval = s.min_interval ∧
      (s.on_advance now).1.step = s.step) ∧
      (s.on_advance now).1.done = s.done + 1 := by
  unfold ThrottledProgress.on_advance
  dsimp only
  split
  · exact ⟨⟨rfl, rfl, rfl⟩, rfl⟩
  · split
    · exact ⟨⟨rfl, rfl, rfl⟩, rfl⟩
    · exact ⟨⟨rfl, rfl, rfl⟩, rfl⟩

lemma ThrottledProgress.on_advance_last_emitted_le (s : ThrottledProgress) (now : Nat)
    (h : s.last_emitted ≤ s.done) :
    (s.on_advance now).1.last_emitted ≤ (s.on_advance now).1.done := by
  unfold ThrottledProgress.on_advance
  dsimp only
  split
  · exact le_rfl
  · split
    · exact le_rfl
    · exact Nat.le_succ_of_le h

lemma ThrottledProgress.on_advance_last_emit_at_le (s : ThrottledProgress) (now b : Nat)
    (hs : s.last_emit_at ≤ b) (hn : now ≤ b) :
    (s.on_advance now).1.last_emit_at ≤ b := by
  unfold ThrottledProgress.on_advance
  dsimp only
  split
  · exact hs
  · split
    · exact hn
    · exact hs

lemma ThrottledProgress.run_fields (ts : List Nat) (s : ThrottledProgress) :
    ((s.run ts).total = s.total ∧
      (s.run ts).min_interval = s.min_interval ∧
      (s.run ts).step = s.step) ∧
      (s.run ts).done = s.done + ts.length := by
  induction ts generalizing s with
  | nil => simp [run_nil]
  | cons t ts ih =>
    rw [run_cons]
    obtain ⟨⟨h1, h2, h3⟩, h4⟩ := ih ((s.on_advance t).1)
    obtain ⟨⟨g1, g2, g3⟩, g4⟩ := s.on_advance_fields t
    refine ⟨⟨h1.trans g1, h2.trans g2, h3.trans g3⟩, ?_⟩
    rw [h4, g4, List.length_cons]
    omega

lemma ThrottledProgress.run_last_emitted_le (ts : List Nat) (s : ThrottledProgress)
    (h : s.last_emitted ≤ s.done) :
    (s.run ts).last_emitted ≤ (s.run ts).done := by
  induction ts generalizing s with
  | nil => simpa [run_nil] using h
  | cons t ts ih =>
    rw [run_cons]
    exact ih _ (s.on_advance_last_emitted_le t h)

lemma ThrottledProgress.run_last_emit_at_le (ts : List Nat) (s : ThrottledProgress) (b : Nat)
    (hs : s.last_emit_at ≤ b) (h : ∀ t ∈ ts, t ≤ b) :
    (s.run ts).last_emit_at ≤ b := by
  induction ts generalizing s with
  | nil => simpa [run_nil] using hs
  | cons t ts ih =>
    rw [run_cons]
    exact ih _ (s.on_advance_last_emit_at_le t b hs (h t (by simp)))
      (fun u hu => h u (by simp [hu]))

/-- Branch analysis of one `on_advance` call after a prefix of calls, with all
quantities read as truncated `Nat` arithmetic (exactly as the code computes
them). -/
lemma throttle_emit_iff_nat (T t0 : Nat) (pre : List Nat) (now : Nat)
    (hlen : pre.length + 1 ≤ T) :
    ((((ThrottledProgress.new T t0).run pre).on_advance now).2.2 = true ↔
      (pre.length + 1 = T ∨
        max 1 (T / 100) ≤
          pre.length + 1 - ((ThrottledProgress.new T t0).run pre).last_emitted ∨
        80 ≤ now - ((ThrottledProgress.new T t0).run pre).last_emit_at)) := by
  set s := (ThrottledProgress.new T t0).run pre with hs
  obtain ⟨⟨htot, hmin, hstep⟩, hdone⟩ :=
    ThrottledProgress.run_fields pre (ThrottledProgress.new T t0)
  have hdone' : s.done = pre.length := by
    rw [← hs] at hdone; simpa [ThrottledProgress.new] using hdone
  have htot' : s.total = T := by rw [← hs] at htot; simpa [ThrottledProgress.new] using htot
  have hmin' : s.min_interval = 80 := by
    rw [← hs] at hmin; simpa [ThrottledProgress.new] using hmin
  have hstep' : s.step = max (T / 100) 1 := by
    rw [← hs] at hstep; simpa [ThrottledProgress.new] using hstep
  unfold ThrottledProgress.on_advance
  dsimp only
  rw [hdone', htot', hmin', hstep']
  by_cases hfin : pre.length + 1 ≥ T
  · have heq : pre.length + 1 = T := le_antisymm hlen hfin
    simp [hfin, heq]
  · rw [if_neg hfin]
    by_cases hcond : (max (T / 100) 1 ≤ pre.length + 1 - s.last_emitted ∨
        80 ≤ now - s.last_emit_at)
    · rw [if_pos hcond]
      constructor
      · intro _
        rcases hcond with h | h
        · exact Or.inr (Or.inl (by rwa [Nat.max_comm] at h))
        · exact Or.inr (Or.inr h)
      · intro _; rfl
    · rw [if_neg hcond]
      constructor
      · intro h; exact absurd h (by simp)
      · intro h
        exfalso
        rcases h with h | h | h
        · exact hfin h.ge
        · exact hcond (Or.inl (by rwa [Nat.max_comm] at h))
        · exact hcond (Or.inr h)

/-- C2 — In any run of the throttle built over a total `T ≥ 1` (as in
`ThrottledProgress::new`) consisting of at most `T` calls to `on_advance` on a
monotone clock (the run is split as `pre ++ now :: _`, the inspected call
happening at time `now` with all earlier call times, and the construction time
`t0`, at most `now`), the inspected call returns `should_emit = true` exactly
when its new `done` value (`pre.length + 1`) equals `T`, or
`done − last_emitted ≥ step` with `step = max(1, T / 100)` under integer
division, or at least 80 ms have elapsed since the last emission — the
arithmetic read over `ℤ`, as the claim states it. -/
theorem throttle_on_advance_emit_iff (T t0 : Nat) (pre : List Nat) (now : Nat)
    (hT : 1 ≤ T) (hlen : pre.length + 1 ≤ T)
    (hpre : ∀ t ∈ pre, t ≤ now) (ht0 : t0 ≤ now) :
    ((((ThrottledProgress.new T t0).run pre).on_advance now).2.2 = true ↔
      (pre.length + 1 = T ∨
        (max 1 (T / 100) : ℤ) ≤ (pre.length + 1 : ℤ) -
          (((ThrottledProgress.new T t0).run pre).last_emitted : ℤ) ∨
        (80 : ℤ) ≤ (now : ℤ) -
          (((ThrottledProgress.new T t0).run pre).last_emit_at : ℤ))) := by
  have key := throttle_emit_iff_nat T t0 pre now hlen
  set s := (ThrottledProgress.new T t0).run pre with hs
  have hle : s.last_emitted ≤ pre.length := by
    have h1 := ThrottledProgress.run_last_emitted_le pre (ThrottledProgress.new T t0)
      (by simp [ThrottledProgress.new])
    have h2 := (ThrottledProgress.run_fields pre (ThrottledProgress.new T t0)).2
    rw [← hs] at h1 h2
    simpa [ThrottledProgress.new, h2] using h1
  have hts : s.last_emit_at ≤ now := by
    have := ThrottledProgress.run_last_emit_at_le pre (ThrottledProgress.new T t0) now
      (by simpa [ThrottledProgress.new] using ht0) hpre
    rwa [← hs] at this
  rw [key]
  have h2 : (max 1 (T / 100) ≤ pre.length + 1 - s.last_emitted) ↔
      ((max 1 (T / 100) : ℤ) ≤ (pre.length + 1 : ℤ) - (s.last_emitted : ℤ)) := by
    omega
  have h3 : (80 ≤ now - s.last_emit_at) ↔
      ((80 : ℤ) ≤ (now : ℤ) - (s.last_emit_at : ℤ)) := by
    omega
  rw [h2, h3]

/-- Witness for C2 at `T = 3`, `t0 = 0`, no preceding calls, call time 0. -/
theorem throttle_on_advance_emit_iff_witness :
    ((((ThrottledProgress.new 3 0).run []).on_advance 0).2.2 = true ↔
      (List.length ([] : List Nat) + 1 = 3 ∨
        (max 1 (3 / 100) : ℤ) ≤ (List.length ([] : List Nat) + 1 : ℤ) -
          (((ThrottledProgress.new 3 0).run []).last_emitted : ℤ) ∨
        (80 : ℤ) ≤ (0 : ℤ) -
          (((ThrottledProgress.new 3 0).run []).last_emit_at : ℤ))) :=
  throttle_on_advance_emit_iff 3 0 [] 0 (by decide) (by decide)
    (by intro t ht; cases ht) (by decide)

/-- C3 counterexample — advancing a throttle with `total = 1` at time 100
is the final emission: `should_emit = true`, yet the stored last-emission
timestamp is left at its initial value 0 and is *not* updated to the call
time 100, contradicting the claim that every emitting call updates the
timestamp. -/
theorem throttle_final_emit_skips_timestamp :
    (((ThrottledProgress.new 1 0).on_advance 100).2.2 = true ∧
      ((ThrottledProgress.new 1 0).on_advance 100).1.last_emit_at = 0) ∧
      ¬ ((ThrottledProgress.new 1 0).on_advance 100).1.last_emit_at = 100 := by
  decide

/-- C3 (amended) — Whenever `on_advance` returns `should_emit = true`, the
call updates the stored last-emitted counter to the new `done`; the
last-emission timestamp is updated to the call time on every *non-final*
emission (`done < total`), while the final emission (`done ≥ total`) leaves
the timestamp unchanged. -/
theorem throttle_emit_updates (s : ThrottledProgress) (now : Nat)
    (h : (s.on_advance now).2.2 = true) :
    (s.on_advance now).1.last_emitted = s.done + 1 ∧
      (s.done + 1 < s.total → (s.on_advance now).1.last_emit_at = now) ∧
      (s.total ≤ s.done + 1 → (s.on_advance now).1.last_emit_at = s.last_emit_at) := by
  unfold ThrottledProgress.on_advance at h ⊢
  dsimp only at h ⊢
  by_cases hfin : s.done + 1 ≥ s.total
  · rw [if_pos hfin] at h ⊢
    exact ⟨rfl, fun hlt => absurd hfin (by omega), fun _ => rfl⟩
  · rw [if_neg hfin] at h ⊢
    split at h
    · rename_i hcond
      rw [if_pos hcond]
      exact ⟨rfl, fun _ => rfl, fun hle => absurd hle (by omega)⟩
    · simp at h

/-- Witness for the amended C3 at a concrete non-final emitting call. -/
theorem throttle_emit_updates_witness :
    ((ThrottledProgress.new 3 0).on_advance 100).1.last_emitted = 0 + 1 ∧
      (0 + 1 < (ThrottledProgress.new 3 0).total →
        ((ThrottledProgress.new 3 0).on_advance 100).1.last_emit_at = 100) ∧
      ((ThrottledProgress.new 3 0).total ≤ 0 + 1 →
        ((ThrottledProgress.new 3 0).on_advance 100).1.last_emit_at = 0) :=
  throttle_emit_updates (ThrottledProgress.new 3 0) 100 (by decide)

/-! ## Common data model — `model/scan.rs`, `model/endpoint.rs` -/

/-- An IP address with its family.  The byte-level address structure is
irrelevant to the verified properties; only identity and family
(`IpAddr::is_ipv4` / `is_ipv6`) are used by the scan pipeline. -/
inductive Ip
  | v4 (a : Nat)
  | v6 (a : Nat)
  deriving Repr, DecidableEq

/-- Model of `IpAddr::is_ipv4`. -/
def Ip.isV4 : Ip → Bool
  | .v4 _ => true
  | .v6 _ => false

/-- Model of `IpAddr::is_ipv6`. -/
def Ip.isV6 : Ip → Bool
  | .v4 _ => false
  | .v6 _ => true

/-- Model of `PortState` (model/scan.rs lines 26–30). -/
inductive PortState
  | Open
  | Closed
  | Filtered
  deriving Repr, DecidableEq

/-- Model of `HostState` (model/scan.rs lines 72–76). -/
inductive HostState
  | Alive
  | Unreachable
  deriving Repr, DecidableEq

/-- Model of `Host` (model/endpoint.rs): an (IP, optional hostname) pair. -/
structure Host where
  ip : Ip
  hostname : Option String
  deriving Repr, DecidableEq

/-! ## TCP / QUIC port scanners — `probe/scan/tcp.rs`, `probe/scan/quic.rs` -/

/-- The `std::io::ErrorKind` values a failed `connect` can produce; the
variants named in tcp.rs lines 84–90 plus a representative sample of the
remaining kinds which all fall to the `_ => Closed` arm. -/
inductive IoErrorKind
  | TimedOut
  | ConnectionRefused
  | ConnectionReset
  | NotConnected
  | NetworkUnreachable
  | HostUnreachable
  | AddrNotAvailable
  | ConnectionAborted
  | AddrInUse
  | BrokenPipe
  | PermissionDenied
  | WouldBlock
  | Interrupted
  | UnexpectedEof
  | OtherKind
  deriving Repr, DecidableEq

/-- Outcome of `AsyncTcpSocket::connect_timeout` (tcp.rs line 72): success
with the elapsed milliseconds, or an `io::Error` with its kind and its
`to_string()` rendering. -/
inductive ConnectOutcome
  | ok (elapsedMs : Nat)
  | err (kind : IoErrorKind) (msg : String)
  deriving Repr, DecidableEq

/-- Outcome of `AsyncQuicSocket::connect_timeout` (quic.rs line 62): success,
an `anyhow` error that downcasts to an `io::Error`, or any other error
(quic.rs lines 74–83). -/
inductive QuicConnectOutcome
  | ok (elapsedMs : Nat)
  | errIo (kind : IoErrorKind) (msg : String)
  | errOther (msg : String)
  deriving Repr, DecidableEq

/-- Per-port classification of the TCP connect path (tcp.rs lines 40–95):
socket-creation outcome first (lines 47–68), then the connect outcome
(lines 70–95).  Returns `(state, rtt_ms, message)`. -/
def classifyTcpPort (sockRes : Except String Unit) (conn : ConnectOutcome) :
    PortState × Option Nat × Option String :=
  match sockRes with
  | .error e => (.Filtered, none, some ("tcp socket error: " ++ e))
  | .ok _ =>
    match conn with
    | .ok elapsed => (.Open, some elapsed, none)
    | .err k m =>
      let st : PortState :=
        match k with
        | .TimedOut => .Filtered
        | .ConnectionRefused | .ConnectionReset | .NotConnected => .Closed
        | .NetworkUnreachable | .HostUnreachable | .AddrNotAvailable => .Filtered
        | _ => .Closed
      (st, none, some m)

/-- Per-port classification of the QUIC handshake path (quic.rs lines 56–93):
endpoint-creation outcome first (lines 57, 88–92), then the handshake
outcome (lines 62–86). -/
def classifyQuicPort (epRes : Except String Unit) (conn : QuicConnectOutcome) :
    PortState × Option Nat × Option String :=
  match epRes with
  | .error e => (.Filtered, none, some ("quic endpoint error: " ++ e))
  | .ok _ =>
    match conn with
    | .ok elapsed => (.Open, some elapsed, none)
    | .errIo k m => (if k = .TimedOut then .Filtered else .Closed, none, some m)
    | .errOther m => (.Closed, none, some m)

/-- Model of `PortScanSample` (model/scan.rs lines 38–48).  The `ip_addr` field is
omitted: a port scan has a single constant target IP (`setting.ip_addr`),
recorded once in the report.  `ServiceInfo` is opaque to the core and
modelled as a `String`. -/
structure PortScanSample where
  port : Nat
  state : PortState
  rtt_ms : Option Nat
  message : Option String
  service_name : Option String
  service_info : Option String
  done : Nat
  total : Nat
  deriving Repr, DecidableEq

/-- The named events a port scan emits (tcp.rs / quic.rs; §4.9 of the spec).
Payloads irrelevant to the claims are dropped. -/
inductive ScanEvent
  | progress (done total : Nat)
  | openPort (port : Nat)
  | serviceDetectionStart
  | serviceDetectionDone
  | done
  deriving Repr, DecidableEq

/-- One port worker (the closure of tcp.rs lines 36–122 / quic.rs lines
38–120): classify the port, advance the throttle at time `now`, build the
sample, emit `portscan:open` for Open and `portscan:progress` when the
throttle permits. -/
def portProbeStep (classify : Nat → PortState × Option Nat × Option String)
    (thr : ThrottledProgress) (now : Nat) (total : Nat) (port : Nat) :
    ThrottledProgress × PortScanSample × List ScanEvent :=
  let c := classify port
  let r := thr.on_advance now
  let sample : PortScanSample :=
    { port := port, state := c.1, rtt_ms := c.2.1, message := c.2.2,
      service_name := none, service_info := none, done := r.2.1, total := total }
  let evs := (if c.1 = .Open then [ScanEvent.openPort port] else []) ++
    (if r.2.2 then [ScanEvent.progress r.2.1 total] else [])
  (r.1, sample, evs)

/-- Drive all port workers (the `buffer_unordered` stream, determinised to
input order).  `times k` is the clock reading at the `k`-th completion. -/
def portProbeGo (classify : Nat → PortState × Option Nat × Option String)
    (times : Nat → Nat) (total : Nat) :
    List Nat → ThrottledProgress → Nat → List PortScanSample × List ScanEvent
  | [], _, _ => ([], [])
  | p :: ps, thr, k =>
    let r := portProbeStep classify thr (times k) total p
    let rest := portProbeGo classify times total ps r.1 (k + 1)
    (r.2.1 :: rest.1, r.2.2 ++ rest.2)

/-- Stable insertion of a sample into a port-sorted list
(`Vec::sort_by_key(|s| s.port)` building block). -/
def insertByPort (s : PortScanSample) : List PortScanSample → List PortScanSample
  | [] => [s]
  | t :: ts => if s.port ≤ t.port then s :: t :: ts else t :: insertByPort s ts

/-- Model of `open_samples.sort_by_key(|s| s.port)` (tcp.rs line 140 / quic.rs
line 136). -/
def sortByPort : List PortScanSample → List PortScanSample
  | [] => []
  | s :: ss => insertByPort s (sortByPort ss)

/-- The collect loop (tcp.rs lines 127–140 / quic.rs lines 125–136): keep
only `Open` samples, attach the well-known service name from the service DB
(`db : port → name`), then sort by port. -/
def collectOpen (db : Nat → Option String) (samples : List PortScanSample) :
    List PortScanSample :=
  sortByPort (((samples.filter (fun s => s.state = .Open))).map
    (fun s => { s with service_name := db s.port }))

/-- Merging detector results into the open samples by port (tcp.rs lines
163–171 / quic.rs lines 159–167). -/
def mergeServiceInfo (results : List (Nat × String)) (samples : List PortScanSample) :
    List PortScanSample :=
  samples.map (fun s =>
    match results.find? (fun r => r.1 = s.port) with
    | some r => { s with service_info := some r.2 }
    | none => s)

/-- Model of `PortScanReport` (model/scan.rs lines 51–57); the protocol tag is
implied by which scanner produced the report. -/
structure PortScanReport where
  run_id : String
  ip : Ip
  hostname : Option String
  samples : List PortScanSample
  deriving Repr, DecidableEq

/-- The shared shape of `tcp::port_scan` (tcp.rs lines 16–185) and
`quic::port_scan` (quic.rs lines 16–181) after the per-port classification
is factored out: probe every port through the throttle, collect and sort the
Open samples, optionally run service detection (whose failure propagates via
`?`), and emit `portscan:done` with the report.  `ports` is the expanded
(and, when not `ordered`, shuffled) port list; `detector` is the outcome of
`ServiceDetector::run_service_detection`. -/
def portScanCore (classify : Nat → PortState × Option Nat × Option String)
    (db : Nat → Option String) (run_id : String) (ip : Ip) (hostname : Option String)
    (service_detection : Bool) (detector : Except String (List (Nat × String)))
    (ports : List Nat) (t0 : Nat) (times : Nat → Nat) :
    List ScanEvent × Except String PortScanReport :=
  let total := ports.length
  let pr := portProbeGo classify times total ports (ThrottledProgress.new total t0) 0
  let open_samples := collectOpen db pr.1
  if service_detection = true ∧ open_samples ≠ [] then
    match detector with
    | .error e => (pr.2 ++ [ScanEvent.serviceDetectionStart], .error e)
    | .ok results =>
      (pr.2 ++ [ScanEvent.serviceDetectionStart, ScanEvent.serviceDetectionDone,
          ScanEvent.done],
        .ok { run_id := run_id, ip := ip, hostname := hostname,
              samples := mergeServiceInfo results open_samples })
  else
    (pr.2 ++ [ScanEvent.done],
      .ok { run_id := run_id, ip := ip, hostname := hostname, samples := open_samples })

/-- Model of `tcp::port_scan`: the TCP instantiation.  `sockRes p` is the outcome of
`AsyncTcpSocket::from_config` for port `p`'s probe, `conn p` the outcome of
its `connect_timeout`. -/
def tcpPortScan (sockRes : Nat → Except String Unit) (conn : Nat → ConnectOutcome)
    (db : Nat → Option String) (run_id : String) (ip : Ip) (hostname : Option String)
    (service_detection : Bool) (detector : Except String (List (Nat × String)))
    (ports : List Nat) (t0 : Nat) (times : Nat → Nat) :
    List ScanEvent × Except String PortScanReport :=
  portScanCore (fun p => classifyTcpPort (sockRes p) (conn p)) db run_id ip hostname
    service_detection detector ports t0 times

/-- Model of `quic::port_scan`: the QUIC instantiation.  `epRes p` is the outcome of
`AsyncQuicSocket::from_config` for port `p`'s probe, `conn p` the outcome of
its handshake. -/
def quicPortScan (epRes : Nat → Except String Unit) (conn : Nat → QuicConnectOutcome)
    (db : Nat → Option String) (run_id : String) (ip : Ip) (hostname : Option String)
    (service_detection : Bool) (detector : Except String (List (Nat × String)))
    (ports : List Nat) (t0 : Nat) (times : Nat → Nat) :
    List ScanEvent × Except String PortScanReport :=
  portScanCore (fun p => classifyQuicPort (epRes p) (conn p)) db run_id ip hostname
    service_detection detector ports t0 times

/-! ### Lemmas about the port-scan pipeline -/

lemma insertByPort_perm (s : PortScanSample) (l : List PortScanSample) :
    (insertByPort s l).Perm (s :: l) := by
  induction l with
  | nil => exact List.Perm.refl _
  | cons t ts ih =>
    unfold insertByPort
    split
    · exact List.Perm.refl _
    · exact (ih.cons t).trans (List.Perm.swap s t ts)

lemma sortByPort_perm (l : List PortScanSample) : (sortByPort l).Perm l := by
  induction l with
  | nil => exact List.Perm.refl _
  | cons s ss ih => exact (insertByPort_perm s (sortByPort ss)).trans (ih.cons s)

lemma mem_insertByPort {x s : PortScanSample} {l : List PortScanSample} :
    x ∈ insertByPort s l ↔ x = s ∨ x ∈ l := by
  rw [(insertByPort_perm s l).mem_iff, List.mem_cons]

lemma insertByPort_pairwise (s : PortScanSample) (l : List PortScanSample)
    (h : l.Pairwise (fun a b => a.port ≤ b.port)) :
    (insertByPort s l).Pairwise (fun a b => a.port ≤ b.port) := by
  induction l with
  | nil => simp [insertByPort]
  | cons t ts ih =>
    rw [List.pairwise_cons] at h
    unfold insertByPort
    split
    · rename_i hle
      rw [List.pairwise_cons]
      refine ⟨?_, List.pairwise_cons.mpr h⟩
      intro b hb
      rcases List.mem_cons.mp hb with rfl | hb
      · exact hle
      · exact hle.trans (h.1 b hb)
    · rename_i hgt
      rw [List.pairwise_cons]
      refine ⟨?_, ih h.2⟩
      intro b hb
      rcases mem_insertByPort.mp hb with rfl | hb
      · exact Nat.le_of_not_le hgt
      · exact h.1 b hb

lemma sortByPort_pairwise (l : List PortScanSample) :
    (sortByPort l).Pairwise (fun a b => a.port ≤ b.port) := by
  induction l with
  | nil => simp [sortByPort]
  | cons s ss ih => exact insertByPort_pairwise s (sortByPort ss) ih

lemma portProbeGo_ports (classify : Nat → PortState × Option Nat × Option String)
    (times : Nat → Nat) (total : Nat) (ports : List Nat) :
    ∀ (thr : ThrottledProgress) (k : Nat),
      (portProbeGo classify times total ports thr k).1.map (·.port) = ports := by
  induction ports with
  | nil => intro thr k; rfl
  | cons p ps ih =>
    intro thr k
    simp only [portProbeGo, portProbeStep, List.map_cons, List.cons.injEq]
    exact ⟨trivial, ih _ _⟩

lemma portProbeGo_fields (classify : Nat → PortState × Option Nat × Option String)
    (times : Nat → Nat) (total : Nat) (ports : List Nat) :
    ∀ (thr : ThrottledProgress) (k : Nat),
      ∀ s ∈ (portProbeGo classify times total ports thr k).1,
        s.state = (classify s.port).1 ∧ s.rtt_ms = (classify s.port).2.1 ∧
          s.message = (classify s.port).2.2 ∧
          s.service_name = none ∧ s.service_info = none := by
  induction ports with
  | nil => intro thr k s hs; cases hs
  | cons p ps ih =>
    intro thr k s hs
    rcases List.mem_cons.mp hs with rfl | hs
    · exact ⟨rfl, rfl, rfl, rfl, rfl⟩
    · exact ih _ _ s hs

lemma portProbeGo_open_ports (classify : Nat → PortState × Option Nat × Option String)
    (times : Nat → Nat) (total : Nat) (ports : List Nat) :
    ∀ (thr : ThrottledProgress) (k : Nat),
      ((portProbeGo classify times total ports thr k).1.filter
          (fun s => s.state = .Open)).map (·.port) =
        ports.filter (fun p => (classify p).1 = .Open) := by
  induction ports with
  | nil => intro thr k; rfl
  | cons p ps ih =>
    intro thr k
    by_cases h : (classify p).1 = PortState.Open
    · simp only [portProbeGo, portProbeStep, List.filter_cons]
      simp [h, ih]
    · simp only [portProbeGo, portProbeStep, List.filter_cons]
      simp [h, ih]

lemma portProbeGo_no_done (classify : Nat → PortState × Option Nat × Option String)
    (times : Nat → Nat) (total : Nat) (ports : List Nat) :
    ∀ (thr : ThrottledProgress) (k : Nat),
      ScanEvent.done ∉ (portProbeGo classify times total ports thr k).2 := by
  induction ports with
  | nil => intro thr k h; cases h
  | cons p ps ih =>
    intro thr k h
    simp only [portProbeGo, portProbeStep, List.mem_append] at h
    rcases h with (h | h) | h
    · split at h
      · exact absurd (List.mem_singleton.mp h) (by simp)
      · cases h
    · split at h
      · exact absurd (List.mem_singleton.mp h) (by simp)
      · cases h
    · exact ih _ _ h

lemma collectOpen_mem {db : Nat → Option String} {samples : List PortScanSample}
    {s : PortScanSample} (h : s ∈ collectOpen db samples) :
    ∃ s₀ ∈ samples, s₀.state = .Open ∧ s = { s₀ with service_name := db s₀.port } := by
  unfold collectOpen at h
  rw [(sortByPort_perm _).mem_iff] at h
  obtain ⟨s₀, hs₀, rfl⟩ := List.mem_map.mp h
  rw [List.mem_filter] at hs₀
  exact ⟨s₀, hs₀.1, by simpa using hs₀.2, rfl⟩

lemma collectOpen_ports_perm (db : Nat → Option String) (samples : List PortScanSample) :
    ((collectOpen db samples).map (·.port)).Perm
      ((samples.filter (fun s => s.state = .Open)).map (·.port)) := by
  unfold collectOpen
  have h := (sortByPort_perm ((samples.filter (fun s => s.state = .Open)).map
    (fun s => { s with service_name := db s.port }))).map (·.port)
  refine h.trans ?_
  rw [List.map_map]
  exact List.Perm.refl _

lemma collectOpen_pairwise (db : Nat → Option String) (samples : List PortScanSample) :
    (collectOpen db samples).Pairwise (fun a b => a.port ≤ b.port) :=
  sortByPort_pairwise _

/-- The per-element action of `mergeServiceInfo`. -/
lemma mergeServiceInfo_eq_map (results : List (Nat × String))
    (samples : List PortScanSample) :
    mergeServiceInfo results samples = samples.map (fun s =>
      match results.find? (fun r => r.1 = s.port) with
      | some r => { s with service_info := some r.2 }
      | none => s) := rfl

lemma mergeServiceInfo_mem {results : List (Nat × String)}
    {samples : List PortScanSample} {s : PortScanSample}
    (h : s ∈ mergeServiceInfo results samples) :
    ∃ s₀ ∈ samples, s.port = s₀.port ∧ s.state = s₀.state ∧
      s.service_name = s₀.service_name := by
  obtain ⟨s₀, hs₀, rfl⟩ := List.mem_map.mp h
  refine ⟨s₀, hs₀, ?_⟩
  cases hfind : results.find? (fun r => r.1 = s₀.port) <;> simp [hfind]

lemma mergeServiceInfo_ports (results : List (Nat × String))
    (samples : List PortScanSample) :
    (mergeServiceInfo results samples).map (·.port) = samples.map (·.port) := by
  rw [mergeServiceInfo_eq_map, List.map_map]
  apply List.map_congr_left
  intro s _
  cases hfind : results.find? (fun r => r.1 = s.port) <;> simp [hfind]

lemma mergeServiceInfo_pairwise (results : List (Nat × String))
    (samples : List PortScanSample)
    (h : samples.Pairwise (fun a b => a.port ≤ b.port)) :
    (mergeServiceInfo results samples).Pairwise (fun a b => a.port ≤ b.port) := by
  rw [mergeServiceInfo_eq_map, List.pairwise_map]
  refine h.imp_of_mem ?_
  intro a b _ _ hab
  cases hfa : results.find? (fun r => r.1 = a.port) <;>
    cases hfb : results.find? (fun r => r.1 = b.port) <;> simpa [hfa, hfb] using hab

/-- Everything C7 needs about a successfully completed `portScanCore` run. -/
lemma portScanCore_report (classify : Nat → PortState × Option Nat × Option String)
    (db : Nat → Option String) (run_id : String) (ip : Ip) (hostname : Option String)
    (sd : Bool) (detector : Except String (List (Nat × String)))
    (ports : List Nat) (t0 : Nat) (times : Nat → Nat)
    (evs : List ScanEvent) (report : PortScanReport)
    (h : portScanCore classify db run_id ip hostname sd detector ports t0 times =
      (evs, .ok report)) :
    (∀ s ∈ report.samples, s.state = .Open ∧ s.service_name = db s.port) ∧
      report.samples.Pairwise (fun a b => a.port ≤ b.port) ∧
      (report.samples.map (·.port)).Perm
        (ports.filter (fun p => (classify p).1 = .Open)) := by
  simp only [portScanCore] at h
  set samples := (portProbeGo classify times ports.length ports
    (ThrottledProgress.new ports.length t0) 0).1 with hsamples
  have hopen : ∀ s ∈ collectOpen db samples,
      s.state = .Open ∧ s.service_name = db s.port := by
    intro s hs
    obtain ⟨s₀, _, hst, rfl⟩ := collectOpen_mem hs
    exact ⟨hst, rfl⟩
  have hperm : ((collectOpen db samples).map (·.port)).Perm
      (ports.filter (fun p => (classify p).1 = .Open)) := by
    refine (collectOpen_ports_perm db samples).trans ?_
    rw [hsamples, portProbeGo_open_ports]
  split at h
  · split at h
    · rw [Prod.mk.injEq] at h
      exact absurd h.2 (by simp)
    · rename_i results
      rw [Prod.mk.injEq, Except.ok.injEq] at h
      obtain ⟨-, hr⟩ := h
      subst hr
      refine ⟨?_, ?_, ?_⟩
      · intro s hs
        obtain ⟨s₀, hs₀, hp, hst, hn⟩ := mergeServiceInfo_mem hs
        obtain ⟨ho, hdb⟩ := hopen s₀ hs₀
        exact ⟨hst.trans ho, by rw [hn, hdb, hp]⟩
      · exact mergeServiceInfo_pairwise _ _ (collectOpen_pairwise db samples)
      · rw [mergeServiceInfo_ports]
        exact hperm
  · rw [Prod.mk.injEq, Except.ok.injEq] at h
    obtain ⟨-, hr⟩ := h
    subst hr
    exact ⟨hopen, collectOpen_pairwise db samples, hperm⟩

/-- C5 — The TCP port scanner classifies every port from the connect
outcome exactly as the table states: success → Open with RTT = elapsed;
timeout → Filtered; connection refused / reset / not connected → Closed;
network unreachable / host unreachable / address not available → Filtered;
any other connect error → Closed with the diagnostic attached;
socket-creation failure → Filtered with a diagnostic attached. -/
theorem tcp_port_classification (t : Nat) (m e : String) (k : IoErrorKind)
    (c : ConnectOutcome) :
    classifyTcpPort (.ok ()) (.ok t) = (.Open, some t, none) ∧
    classifyTcpPort (.ok ()) (.err .TimedOut m) = (.Filtered, none, some m) ∧
    classifyTcpPort (.ok ()) (.err .ConnectionRefused m) = (.Closed, none, some m) ∧
    classifyTcpPort (.ok ()) (.err .ConnectionReset m) = (.Closed, none, some m) ∧
    classifyTcpPort (.ok ()) (.err .NotConnected m) = (.Closed, none, some m) ∧
    classifyTcpPort (.ok ()) (.err .NetworkUnreachable m) = (.Filtered, none, some m) ∧
    classifyTcpPort (.ok ()) (.err .HostUnreachable m) = (.Filtered, none, some m) ∧
    classifyTcpPort (.ok ()) (.err .AddrNotAvailable m) = (.Filtered, none, some m) ∧
    (k ≠ .TimedOut → k ≠ .ConnectionRefused → k ≠ .ConnectionReset →
      k ≠ .NotConnected → k ≠ .NetworkUnreachable → k ≠ .HostUnreachable →
      k ≠ .AddrNotAvailable →
      classifyTcpPort (.ok ()) (.err k m) = (.Closed, none, some m)) ∧
    classifyTcpPort (.error e) c = (.Filtered, none, some ("tcp socket error: " ++ e)) := by
  refine ⟨rfl, rfl, rfl, rfl, rfl, rfl, rfl, rfl, ?_, rfl⟩
  intro h1 h2 h3 h4 h5 h6 h7
  cases k <;> simp_all [classifyTcpPort]

/-- Witness for C5: the catch-all arm at the concrete kind `BrokenPipe`. -/
theorem tcp_port_classification_witness :
    classifyTcpPort (.ok ()) (.err .BrokenPipe "pipe") = (.Closed, none, some "pipe") :=
  (tcp_port_classification 5 "pipe" "y" .BrokenPipe (.ok 1)).2.2.2.2.2.2.2.2.1
    (by decide) (by decide) (by decide) (by decide) (by decide) (by decide) (by decide)

/-- C7 — For every completed TCP or QUIC port scan (one that returns a
report), the report's samples are exactly the ports classified Open — no
Closed or Filtered sample is retained — sorted in ascending port order, each
carrying the service name found in the corresponding service database
(`service_name = db port`, which is `none` when the port is absent). -/
theorem port_scan_open_samples :
    (∀ (sockRes : Nat → Except String Unit) (conn : Nat → ConnectOutcome)
        (db : Nat → Option String) (run_id : String) (ip : Ip)
        (hostname : Option String) (sd : Bool)
        (detector : Except String (List (Nat × String)))
        (ports : List Nat) (t0 : Nat) (times : Nat → Nat)
        (evs : List ScanEvent) (report : PortScanReport),
      tcpPortScan sockRes conn db run_id ip hostname sd detector ports t0 times =
          (evs, .ok report) →
        (∀ s ∈ report.samples, s.state = .Open ∧ s.service_name = db s.port) ∧
          report.samples.Pairwise (fun a b => a.port ≤ b.port) ∧
          (report.samples.map (·.port)).Perm
            (ports.filter (fun p => (classifyTcpPort (sockRes p) (conn p)).1 = .Open))) ∧
    (∀ (epRes : Nat → Except String Unit) (conn : Nat → QuicConnectOutcome)
        (db : Nat → Option String) (run_id : String) (ip : Ip)
        (hostname : Option String) (sd : Bool)
        (detector : Except String (List (Nat × String)))
        (ports : List Nat) (t0 : Nat) (times : Nat → Nat)
        (evs : List ScanEvent) (report : PortScanReport),
      quicPortScan epRes conn db run_id ip hostname sd detector ports t0 times =
          (evs, .ok report) →
        (∀ s ∈ report.samples, s.state = .Open ∧ s.service_name = db s.port) ∧
          report.samples.Pairwise (fun a b => a.port ≤ b.port) ∧
          (report.samples.map (·.port)).Perm
            (ports.filter (fun p => (classifyQuicPort (epRes p) (conn p)).1 = .Open))) := by
  constructor
  · intro sockRes conn db run_id ip hostname sd detector ports t0 times evs report h
    unfold tcpPortScan at h
    exact portScanCore_report _ db run_id ip hostname sd detector ports t0 times evs report h
  · intro epRes conn db run_id ip hostname sd detector ports t0 times evs report h
    unfold quicPortScan at h
    exact portScanCore_report _ db run_id ip hostname sd detector ports t0 times evs report h

/-- Witness for C7 at a concrete one-port TCP scan whose only port times out
(sample set empty) and a concrete one-port QUIC scan whose only port answers
(one Open sample). -/
theorem port_scan_open_samples_witness :
    ((∀ s ∈ (PortScanReport.mk "r" (Ip.v4 0) none []).samples,
        s.state = .Open ∧ s.service_name = (fun _ => (none : Option String)) s.port) ∧
      (PortScanReport.mk "r" (Ip.v4 0) none []).samples.Pairwise
        (fun a b => a.port ≤ b.port) ∧
      ((PortScanReport.mk "r" (Ip.v4 0) none []).samples.map (·.port)).Perm
        (([1] : List Nat).filter (fun p =>
          (classifyTcpPort ((fun _ => Except.ok ()) p)
            ((fun _ => ConnectOutcome.err .TimedOut "t") p)).1 = .Open))) :=
  port_scan_open_samples.1 (fun _ => .ok ()) (fun _ => .err .TimedOut "t")
    (fun _ => none) "r" (Ip.v4 0) none false (.ok []) [1] 0 (fun _ => 0)
    [ScanEvent.progress 1 1, ScanEvent.done]
    (PortScanReport.mk "r" (Ip.v4 0) none []) rfl

/-- Events emitted by `portScanCore` when the service detector fails: the
probe-phase events plus `service_detection_start`, with the error
propagated and no `done` event. -/
lemma portScanCore_detector_error (classify : Nat → PortState × Option Nat × Option String)
    (db : Nat → Option String) (run_id : String) (ip : Ip) (hostname : Option String)
    (e : String) (ports : List Nat) (t0 : Nat) (times : Nat → Nat)
    (hopen : ∃ p ∈ ports, (classify p).1 = .Open) :
    (portScanCore classify db run_id ip hostname true (.error e) ports t0 times).2 =
        .error e ∧
      ScanEvent.done ∉
        (portScanCore classify db run_id ip hostname true (.error e) ports t0 times).1 := by
  simp only [portScanCore]
  set samples := (portProbeGo classify times ports.length ports
    (ThrottledProgress.new ports.length t0) 0).1 with hsamples
  have hfil : ports.filter (fun p => (classify p).1 = .Open) ≠ [] := by
    obtain ⟨p, hp, ho⟩ := hopen
    intro hnil
    have hmem : p ∈ ports.filter (fun p => (classify p).1 = .Open) :=
      List.mem_filter.mpr ⟨hp, by simp [ho]⟩
    rw [hnil] at hmem
    cases hmem
  have hperm : ((collectOpen db samples).map (·.port)).Perm
      (ports.filter (fun p => (classify p).1 = .Open)) := by
    refine (collectOpen_ports_perm db samples).trans ?_
    rw [hsamples, portProbeGo_open_ports]
  have hne : collectOpen db samples ≠ [] := by
    intro hnil
    rw [hnil] at hperm
    exact hfil (List.length_eq_zero.mp hperm.length_eq.symm)
  rw [if_pos ⟨trivial, hne⟩]
  refine ⟨rfl, ?_⟩
  intro hmem
  rcases List.mem_append.mp hmem with h | h
  · exact portProbeGo_no_done classify times ports.length ports _ _ h
  · exact absurd (List.mem_singleton.mp h) (by simp)

/-- C10 — If service detection is enabled, at least one port is
classified Open, and the service detector fails, then both the TCP and the
QUIC port scan propagate the detector's error to the caller (via `?`): no
report is produced and no `portscan:done` event is emitted, even though
every port probe already completed. -/
theorem port_scan_detector_error_aborts :
    (∀ (sockRes : Nat → Except String Unit) (conn : Nat → ConnectOutcome)
        (db : Nat → Option String) (run_id : String) (ip : Ip)
        (hostname : Option String) (e : String)
        (ports : List Nat) (t0 : Nat) (times : Nat → Nat),
      (∃ p ∈ ports, (classifyTcpPort (sockRes p) (conn p)).1 = .Open) →
        (tcpPortScan sockRes conn db run_id ip hostname true (.error e)
            ports t0 times).2 = .error e ∧
          ScanEvent.done ∉
            (tcpPortScan sockRes conn db run_id ip hostname true (.error e)
              ports t0 times).1) ∧
    (∀ (epRes : Nat → Except String Unit) (conn : Nat → QuicConnectOutcome)
        (db : Nat → Option String) (run_id : String) (ip : Ip)
        (hostname : Option String) (e : String)
        (ports : List Nat) (t0 : Nat) (times : Nat → Nat),
      (∃ p ∈ ports, (classifyQuicPort (epRes p) (conn p)).1 = .Open) →
        (quicPortScan epRes conn db run_id ip hostname true (.error e)
            ports t0 times).2 = .error e ∧
          ScanEvent.done ∉
            (quicPortScan epRes conn db run_id ip hostname true (.error e)
              ports t0 times).1) := by
  constructor
  · intro sockRes conn db run_id ip hostname e ports t0 times hopen
    unfold tcpPortScan
    exact portScanCore_detector_error _ db run_id ip hostname e ports t0 times hopen
  · intro epRes conn db run_id ip hostname e ports t0 times hopen
    unfold quicPortScan
    exact portScanCore_detector_error _ db run_id ip hostname e ports t0 times hopen

/-- Witness for C10 at a concrete one-port TCP scan with an open port and a
failing detector. -/
theorem port_scan_detector_error_aborts_witness :
    (tcpPortScan (fun _ => .ok ()) (fun _ => ConnectOutcome.ok 1) (fun _ => none)
        "r" (Ip.v4 0) none true (.error "boom") [1] 0 (fun _ => 0)).2 =
      .error "boom" ∧
    ScanEvent.done ∉
      (tcpPortScan (fun _ => .ok ()) (fun _ => ConnectOutcome.ok 1) (fun _ => none)
        "r" (Ip.v4 0) none true (.error "boom") [1] 0 (fun _ => 0)).1 :=
  port_scan_detector_error_aborts.1 (fun _ => .ok ()) (fun _ => ConnectOutcome.ok 1)
    (fun _ => none) "r" (Ip.v4 0) none "boom" [1] 0 (fun _ => 0)
    ⟨1, by decide, by decide⟩

/-! ## ICMP host scanner — `probe/scan/icmp.rs` -/

/-- Outcome of one probe attempt (one iteration of the retry loop, icmp.rs
lines 157–206): the send failed with an error rendered as `msg`; the reply
channel delivered an RTT within the timeout; the channel was dropped
(`Ok(Err(_canceled))`); or the timeout fired. -/
inductive ProbeOutcome
  | reply (rttMs : Nat)
  | sendErr (msg : String)
  | canceled
  | timeout
  deriving Repr, DecidableEq

/-- The retry loop `for seq in 1..=cnt` (icmp.rs lines 157–206), carrying
`best_rtt` and `last_err` exactly as the source does.  `fuel` is the number
of remaining sequence numbers, `seq` the current one.  On a reply the loop
updates `best_rtt` (`map_or(rtt, |b| b.min(rtt))`) and breaks; every failing
branch overwrites `last_err` and continues. -/
def probeLoop (outcomes : Nat → ProbeOutcome) (timeoutMs : Nat) :
    Nat → Nat → Option Nat → Option String → Option Nat × Option String
  | 0, _, best, lastErr => (best, lastErr)
  | fuel + 1, seq, best, lastErr =>
    match outcomes seq with
    | .reply rtt =>
      (some (match best with | some b => min b rtt | none => rtt), lastErr)
    | .sendErr m =>
      probeLoop outcomes timeoutMs fuel (seq + 1) best (some ("send error: " ++ m))
    | .canceled =>
      probeLoop outcomes timeoutMs fuel (seq + 1) best (some "wait canceled")
    | .timeout =>
      probeLoop outcomes timeoutMs fuel (seq + 1) best
        (some ("timeout (>" ++ toString timeoutMs ++ "ms)"))

/-- The per-target result (icmp.rs lines 152–212, with a socket available):
run the retry loop for `cnt.max(1)` sequences starting at 1, then map
`best_rtt` to `(Alive, Some rtt, None)` or `(Unreachable, None, last_err)`
(lines 208–212). -/
def icmpTargetProbe (outcomes : Nat → ProbeOutcome) (timeoutMs cnt : Nat) :
    HostState × Option Nat × Option String :=
  let r := probeLoop outcomes timeoutMs (max cnt 1) 1 none none
  match r.1 with
  | some rtt => (.Alive, some rtt, none)
  | none => (.Unreachable, none, r.2)

/-- Environment of one host scan: the outcome of `AsyncIcmpSocket::new` for
each family (icmp.rs lines 81–95) and, for each target and sequence number,
the outcome of that probe attempt. -/
structure HostScanEnv where
  sockV4 : Except String Unit
  sockV6 : Except String Unit
  probe : Ip → Nat → ProbeOutcome

/-- Model of `HostScanProgress` (model/scan.rs lines 194–202). -/
structure HostScanProgress where
  ip_addr : Ip
  state : HostState
  rtt_ms : Option Nat
  message : Option String
  done : Nat
  total : Nat
  deriving Repr, DecidableEq

/-- Model of `HostScanReport` (model/scan.rs lines 204–210). -/
structure HostScanReport where
  run_id : String
  alive : List (Host × Nat)
  unreachable : List Host
  total : Nat
  deriving Repr, DecidableEq

/-- The `HashMap` insertion semantics for building `target_map` (icmp.rs lines
74–75): a repeated key replaces the stored value, a fresh key is appended. -/
def mapInsert (m : List (Ip × Host)) (k : Ip) (v : Host) : List (Ip × Host) :=
  if m.any (fun p => p.1 = k) then
    m.map (fun p => if p.1 = k then (k, v) else p)
  else m ++ [(k, v)]

/-- Model of `target_hosts.iter().map(|h| (h.ip, h.clone())).collect::<HashMap<_,_>>()`
(icmp.rs lines 74–75). -/
def collectMap (hosts : List Host) : List (Ip × Host) :=
  hosts.foldl (fun m h => mapInsert m h.ip h) []

/-- Model of `HashMap::get` (icmp.rs lines 254, 259). -/
def mapGet (m : List (Ip × Host)) (k : Ip) : Option Host :=
  (m.find? (fun p => p.1 = k)).map (·.2)

/-- The per-target task body (icmp.rs lines 137–219): pick the socket for the
target's family (`SocketFamily::from_ip`); with no socket the target is
`Unreachable` with the diagnostic, otherwise run the retry loop. -/
def icmpTargetSample (env : HostScanEnv) (hasV4 hasV6 : Bool) (timeoutMs cnt : Nat)
    (ip : Ip) : HostState × Option Nat × Option String :=
  let hasSock := match ip with | .v4 _ => hasV4 | .v6 _ => hasV6
  if hasSock then icmpTargetProbe (env.probe ip) timeoutMs cnt
  else (.Unreachable, none, some "no suitable socket for IP family")

/-- Drive the per-target tasks over the target map's keys (the
`buffer_unordered` stream of icmp.rs lines 122–245, determinised to input
order); `done` is the position-based progress snapshot. -/
def icmpSamples (env : HostScanEnv) (hasV4 hasV6 : Bool) (timeoutMs cnt total : Nat) :
    List (Ip × Host) → Nat → List HostScanProgress
  | [], _ => []
  | (ip, _) :: rest, k =>
    let r := icmpTargetSample env hasV4 hasV6 timeoutMs cnt ip
    { ip_addr := ip, state := r.1, rtt_ms := r.2.1, message := r.2.2,
      done := k + 1, total := total } ::
      icmpSamples env hasV4 hasV6 timeoutMs cnt total rest (k + 1)

/-- The collect loop (icmp.rs lines 247–264): route each sample into `alive`
(with `rtt_ms.unwrap_or(0)`) or `unreachable`, looking the `Host` up in the
target map. -/
def collectHosts (tm : List (Ip × Host)) : List HostScanProgress →
    List (Host × Nat) × List Host
  | [] => ([], [])
  | p :: ps =>
    let rest := collectHosts tm ps
    match p.state with
    | .Alive =>
      match mapGet tm p.ip_addr with
      | some host => ((host, p.rtt_ms.getD 0) :: rest.1, rest.2)
      | none => rest
    | .Unreachable =>
      match mapGet tm p.ip_addr with
      | some host => (rest.1, host :: rest.2)
      | none => rest

/-- Model of `icmp::host_scan` (icmp.rs lines 56–285) on the already-resolved target
set.  A family's socket is created only when a target of that family exists;
a creation failure propagates through `?` (lines 81–95), which the explicit
`match`es mirror.  The report carries the collected alive/unreachable lists
and `total = target_map.len()`. -/
def host_scan (run_id : String) (env : HostScanEnv) (target_hosts : List Host)
    (timeoutMs cnt : Nat) : Except String HostScanReport :=
  let target_map := collectMap target_hosts
  let total := target_map.length
  match (if target_map.any (fun p => p.1.isV4) then env.sockV4.map (fun _ => true)
      else .ok false) with
  | .error e => .error e
  | .ok hasV4 =>
    match (if target_map.any (fun p => p.1.isV6) then env.sockV6.map (fun _ => true)
        else .ok false) with
    | .error e => .error e
    | .ok hasV6 =>
      let samples := icmpSamples env hasV4 hasV6 timeoutMs cnt total target_map 0
      let c := collectHosts target_map samples
      .ok { run_id := run_id, alive := c.1, unreachable := c.2, total := total }

/-! ### Lemmas about the host-scan pipeline -/

/-- C1 counterexample — a host scan over the single IPv4 target `v4 1`
whose IPv4 ICMP socket creation fails with "boom" does *not* complete with a
report marking the target Unreachable: the `?` on `AsyncIcmpSocket::new`
aborts the whole scan, returning the error and no report. -/
theorem host_scan_socket_error_cex :
    host_scan "r" ⟨.error "boom", .ok (), fun _ _ => .timeout⟩
        [⟨Ip.v4 1, none⟩] 100 1 = .error "boom" ∧
      (host_scan "r" ⟨.error "boom", .ok (), fun _ _ => .timeout⟩
        [⟨Ip.v4 1, none⟩] 100 1).toOption = none :=
  ⟨rfl, rfl⟩

/-- C1 (amended) — When creating the ICMP socket for an address family
that has targets fails, the host scan does *not* continue: it aborts,
propagating the creation error to the caller and producing no report (the
`?` at icmp.rs lines 84/92; the "no suitable socket" Unreachable branch can
only apply to a family for which no socket was requested, which cannot occur
for a resolved target).  Stated for both families. -/
theorem host_scan_socket_error_aborts (run_id : String) (env : HostScanEnv)
    (hosts : List Host) (tmo cnt : Nat) (e : String) :
    (((collectMap hosts).any (fun p => p.1.isV4) = true) → env.sockV4 = .error e →
      host_scan run_id env hosts tmo cnt = .error e) ∧
    (((collectMap hosts).any (fun p => p.1.isV6) = true) → env.sockV6 = .error e →
      (env.sockV4 = .ok () ∨ (collectMap hosts).any (fun p => p.1.isV4) = false) →
      host_scan run_id env hosts tmo cnt = .error e) := by
  constructor
  · intro h4 herr
    simp [host_scan, h4, herr, Except.map]
  · intro h6 herr h4
    rcases h4 with h4 | h4
    · by_cases hv4 : (collectMap hosts).any (fun p => p.1.isV4) = true
      · simp [host_scan, hv4, h4, h6, herr, Except.map]
      · simp [host_scan, hv4, h6, herr, Except.map]
    · simp [host_scan, h4, h6, herr, Except.map]

/-- Witness for the amended C1: a scan with one IPv6 target whose IPv6 socket
creation fails. -/
theorem host_scan_socket_error_aborts_witness :
    host_scan "r" ⟨.ok (), .error "no v6", fun _ _ => .timeout⟩
        [⟨Ip.v6 1, none⟩] 100 1 = .error "no v6" :=
  (host_scan_socket_error_aborts "r" ⟨.ok (), .error "no v6", fun _ _ => .timeout⟩
      [⟨Ip.v6 1, none⟩] 100 1 "no v6").2 rfl rfl (Or.inr rfl)

/-- The first reply in the remaining window (`fuel` sequence numbers starting
at `seq`), if any: what "some sequence received a reply" denotes. -/
def firstReplyRtt (outcomes : Nat → ProbeOutcome) : Nat → Nat → Option Nat
  | 0, _ => none
  | fuel + 1, seq =>
    match outcomes seq with
    | .reply rtt => some rtt
    | _ => firstReplyRtt outcomes fuel (seq + 1)

/-- The error message each failing branch of the retry loop records
(icmp.rs lines 187, 198, 203). -/
def probeErrMsg (timeoutMs : Nat) : ProbeOutcome → Option String
  | .reply _ => none
  | .sendErr m => some ("send error: " ++ m)
  | .canceled => some "wait canceled"
  | .timeout => some ("timeout (>" ++ toString timeoutMs ++ "ms)")

lemma probeLoop_reply (outcomes : Nat → ProbeOutcome) (tmo : Nat) :
    ∀ (fuel seq : Nat) (lastErr : Option String) {rtt : Nat},
      firstReplyRtt outcomes fuel seq = some rtt →
      (probeLoop outcomes tmo fuel seq none lastErr).1 = some rtt := by
  intro fuel
  induction fuel with
  | zero => intro seq lastErr rtt h; cases h
  | succ f ih =>
    intro seq lastErr rtt h
    cases ho : outcomes seq with
    | reply r =>
      rw [firstReplyRtt, ho] at h
      cases h
      simp [probeLoop, ho]
    | sendErr m =>
      rw [firstReplyRtt, ho] at h
      simpa [probeLoop, ho] using ih (seq + 1) _ h
    | canceled =>
      rw [firstReplyRtt, ho] at h
      simpa [probeLoop, ho] using ih (seq + 1) _ h
    | timeout =>
      rw [firstReplyRtt, ho] at h
      simpa [probeLoop, ho] using ih (seq + 1) _ h

lemma probeLoop_noReply (outcomes : Nat → ProbeOutcome) (tmo : Nat) :
    ∀ (fuel seq : Nat) (lastErr : Option String), 1 ≤ fuel →
      firstReplyRtt outcomes fuel seq = none →
      probeLoop outcomes tmo fuel seq none lastErr =
        (none, probeErrMsg tmo (outcomes (seq + fuel - 1))) := by
  intro fuel
  induction fuel with
  | zero => intro seq lastErr h; omega
  | succ f ih =>
    intro seq lastErr _ h
    rcases Nat.eq_zero_or_pos f with rfl | hf
    · cases ho : outcomes seq with
      | reply r => rw [firstReplyRtt, ho] at h; cases h
      | sendErr m => simp [probeLoop, ho, probeErrMsg]
      | canceled => simp [probeLoop, ho, probeErrMsg]
      | timeout => simp [probeLoop, ho, probeErrMsg]
    · have harg : seq + (f + 1) - 1 = seq + 1 + f - 1 := by omega
      cases ho : outcomes seq with
      | reply r => rw [firstReplyRtt, ho] at h; cases h
      | sendErr m =>
        rw [firstReplyRtt, ho] at h
        simp only [probeLoop, ho]
        rw [harg]
        exact ih (seq + 1) (some ("send error: " ++ m)) hf h
      | canceled =>
        rw [firstReplyRtt, ho] at h
        simp only [probeLoop, ho]
        rw [harg]
        exact ih (seq + 1) (some "wait canceled") hf h
      | timeout =>
        rw [firstReplyRtt, ho] at h
        simp only [probeLoop, ho]
        rw [harg]
        exact ih (seq + 1) (some ("timeout (>" ++ toString tmo ++ "ms)")) hf h

lemma probeLoop_congr (outcomes outcomes₂ : Nat → ProbeOutcome) (tmo : Nat) :
    ∀ (fuel seq s₀ rtt : Nat) (best : Option Nat) (lastErr : Option String),
      seq ≤ s₀ → s₀ < seq + fuel → outcomes s₀ = .reply rtt →
      (∀ s, seq ≤ s → s ≤ s₀ → outcomes₂ s = outcomes s) →
      probeLoop outcomes₂ tmo fuel seq best lastErr =
        probeLoop outcomes tmo fuel seq best lastErr := by
  intro fuel
  induction fuel with
  | zero => intro seq s₀ rtt best lastErr h1 h2; omega
  | succ f ih =>
    intro seq s₀ rtt best lastErr h1 h2 hrep hagree
    have hseq : outcomes₂ seq = outcomes seq := hagree seq le_rfl h1
    cases ho : outcomes seq with
    | reply r => simp [probeLoop, ho, hseq]
    | sendErr m =>
      have hlt : seq < s₀ := by
        rcases Nat.lt_or_ge seq s₀ with h | h
        · exact h
        · have : seq = s₀ := le_antisymm h1 h
          rw [this, hrep] at ho; cases ho
      rw [probeLoop, probeLoop, hseq, ho]
      exact ih (seq + 1) s₀ rtt best _ hlt (by omega) hrep
        (fun s hs1 hs2 => hagree s (by omega) hs2)
    | canceled =>
      have hlt : seq < s₀ := by
        rcases Nat.lt_or_ge seq s₀ with h | h
        · exact h
        · have : seq = s₀ := le_antisymm h1 h
          rw [this, hrep] at ho; cases ho
      rw [probeLoop, probeLoop, hseq, ho]
      exact ih (seq + 1) s₀ rtt best _ hlt (by omega) hrep
        (fun s hs1 hs2 => hagree s (by omega) hs2)
    | timeout =>
      have hlt : seq < s₀ := by
        rcases Nat.lt_or_ge seq s₀ with h | h
        · exact h
        · have : seq = s₀ := le_antisymm h1 h
          rw [this, hrep] at ho; cases ho
      rw [probeLoop, probeLoop, hseq, ho]
      exact ih (seq + 1) s₀ rtt best _ hlt (by omega) hrep
        (fun s hs1 hs2 => hagree s (by omega) hs2)

/-- C4 — For a host-scan target with retry count `cnt` (treated as at
least 1): if some sequence in `1..=max cnt 1` received a reply, the result is
`Alive` with the RTT of the *first* such reply (the only recorded RTT, hence
the minimum); otherwise it is `Unreachable` carrying the last recorded error
message — the message generated by the outcome of the final sequence.
Moreover the loop short-circuits: outcomes after the first successful
sequence are never examined (any outcome function agreeing up to a replying
sequence yields the identical result). -/
theorem icmp_target_best_of_n (outcomes : Nat → ProbeOutcome) (timeoutMs cnt : Nat) :
    (∀ rtt, firstReplyRtt outcomes (max cnt 1) 1 = some rtt →
      icmpTargetProbe outcomes timeoutMs cnt = (.Alive, some rtt, none)) ∧
    (firstReplyRtt outcomes (max cnt 1) 1 = none →
      icmpTargetProbe outcomes timeoutMs cnt =
        (.Unreachable, none, probeErrMsg timeoutMs (outcomes (max cnt 1)))) ∧
    (∀ (outcomes₂ : Nat → ProbeOutcome) (s₀ rtt : Nat),
      1 ≤ s₀ → s₀ ≤ max cnt 1 → outcomes s₀ = .reply rtt →
      (∀ s, 1 ≤ s → s ≤ s₀ → outcomes₂ s = outcomes s) →
      icmpTargetProbe outcomes₂ timeoutMs cnt = icmpTargetProbe outcomes timeoutMs cnt) := by
  refine ⟨?_, ?_, ?_⟩
  · intro rtt h
    have hr := probeLoop_reply outcomes timeoutMs (max cnt 1) 1 none h
    simp [icmpTargetProbe, hr]
  · intro h
    have h1 : 1 ≤ max cnt 1 := le_max_right cnt 1
    have hr := probeLoop_noReply outcomes timeoutMs (max cnt 1) 1 none h1 h
    have he : 1 + max cnt 1 - 1 = max cnt 1 := by omega
    rw [he] at hr
    simp [icmpTargetProbe, hr]
  · intro outcomes₂ s₀ rtt h1 h2 hrep hagree
    have hc := probeLoop_congr outcomes outcomes₂ timeoutMs (max cnt 1) 1 s₀ rtt
      none none h1 (by omega) hrep hagree
    unfold icmpTargetProbe
    rw [hc]

/-- Witness for C4: three retries, the second one answered with RTT 7. -/
theorem icmp_target_best_of_n_witness :
    icmpTargetProbe (fun s => if s = 2 then ProbeOutcome.reply 7 else .timeout) 100 3 =
      (.Alive, some 7, none) :=
  (icmp_target_best_of_n (fun s => if s = 2 then ProbeOutcome.reply 7 else .timeout)
    100 3).1 7 rfl

/-- First-occurrence deduplication of a list of IPs against a seen-set: the
`HashSet`-driven "first occurrence wins" discipline shared by
`dns::resolve_hosts` and the target map of `icmp::host_scan`. -/
def dedupFirstAux : List Ip → List Ip → List Ip
  | [], _ => []
  | ip :: rest, seen =>
    if ip ∈ seen then dedupFirstAux rest seen
    else ip :: dedupFirstAux rest (ip :: seen)

/-- The distinct IPs of a list, first occurrences in order. -/
def dedupFirst (l : List Ip) : List Ip := dedupFirstAux l []

lemma dedupFirstAux_congr : ∀ (l : List Ip) (seen₁ seen₂ : List Ip),
    (∀ x, x ∈ seen₁ ↔ x ∈ seen₂) → dedupFirstAux l seen₁ = dedupFirstAux l seen₂ := by
  intro l
  induction l with
  | nil => intro seen₁ seen₂ _; rfl
  | cons ip rest ih =>
    intro seen₁ seen₂ hiff
    unfold dedupFirstAux
    by_cases hmem : ip ∈ seen₁
    · rw [if_pos hmem, if_pos ((hiff ip).mp hmem)]
      exact ih seen₁ seen₂ hiff
    · rw [if_neg hmem, if_neg (fun hc => hmem ((hiff ip).mpr hc))]
      rw [ih (ip :: seen₁) (ip :: seen₂) (fun x => by simp [hiff x])]

lemma mapInsert_keys (m : List (Ip × Host)) (k : Ip) (v : Host) :
    (mapInsert m k v).map (·.1) =
      if m.any (fun p => p.1 = k) then m.map (·.1) else m.map (·.1) ++ [k] := by
  unfold mapInsert
  split
  · rw [List.map_map]
    apply List.map_congr_left
    intro p _
    by_cases hk : p.1 = k
    · simp [hk]
    · simp [hk]
  · simp

lemma any_key_iff (m : List (Ip × Host)) (k : Ip) :
    (m.any (fun p => p.1 = k) = true) ↔ k ∈ m.map (·.1) := by
  rw [List.any_eq_true]
  constructor
  · rintro ⟨p, hp, hpk⟩
    exact List.mem_map.mpr ⟨p, hp, by simpa using hpk⟩
  · intro h
    obtain ⟨p, hp, hpk⟩ := List.mem_map.mp h
    exact ⟨p, hp, by simpa using hpk⟩

lemma collectMap_keys_aux : ∀ (hosts : List Host) (m : List (Ip × Host)),
    (hosts.foldl (fun m h => mapInsert m h.ip h) m).map (·.1) =
      m.map (·.1) ++ dedupFirstAux (hosts.map (·.ip)) (m.map (·.1)) := by
  intro hosts
  induction hosts with
  | nil => intro m; simp [dedupFirstAux]
  | cons h hs ih =>
    intro m
    rw [List.foldl_cons, ih (mapInsert m h.ip h), mapInsert_keys]
    by_cases hmem : h.ip ∈ m.map (·.1)
    · rw [if_pos ((any_key_iff m h.ip).mpr hmem)]
      simp only [List.map_cons]
      rw [dedupFirstAux, if_pos hmem]
    · rw [if_neg (fun hc => hmem ((any_key_iff m h.ip).mp hc))]
      simp only [List.map_cons]
      rw [dedupFirstAux, if_neg hmem, List.append_assoc]
      congr 1
      rw [List.singleton_append]
      congr 1
      exact dedupFirstAux_congr _ _ _ (fun x => by simp [or_comm])

lemma collectMap_keys (hosts : List Host) :
    (collectMap hosts).map (·.1) = dedupFirst (hosts.map (·.ip)) := by
  have h := collectMap_keys_aux hosts []
  simp only [List.map_nil, List.nil_append] at h
  exact h

lemma mapGet_of_mem_keys : ∀ (m : List (Ip × Host)) (k : Ip),
    k ∈ m.map (·.1) → ∃ host, mapGet m k = some host := by
  intro m
  induction m with
  | nil => intro k h; cases h
  | cons p ps ih =>
    intro k h
    by_cases hpk : p.1 = k
    · exact ⟨p.2, by simp [mapGet, List.find?_cons_of_pos, hpk]⟩
    · have hk : k ∈ ps.map (·.1) := by
        rcases List.mem_cons.mp h with h | h
        · exact absurd h.symm hpk
        · exact h
      obtain ⟨host, hh⟩ := ih k hk
      refine ⟨host, ?_⟩
      rw [mapGet, List.find?_cons_of_neg _ (by simp [hpk])]
      exact hh

lemma icmpSamples_length (env : HostScanEnv) (b4 b6 : Bool) (tmo cnt total : Nat) :
    ∀ (tm : List (Ip × Host)) (k : Nat),
      (icmpSamples env b4 b6 tmo cnt total tm k).length = tm.length := by
  intro tm
  induction tm with
  | nil => intro k; rfl
  | cons p rest ih =>
    intro k
    obtain ⟨ip, host⟩ := p
    simp only [icmpSamples, List.length_cons]
    rw [ih]

lemma icmpSamples_ips (env : HostScanEnv) (b4 b6 : Bool) (tmo cnt total : Nat) :
    ∀ (tm : List (Ip × Host)) (k : Nat),
      ∀ p ∈ icmpSamples env b4 b6 tmo cnt total tm k, p.ip_addr ∈ tm.map (·.1) := by
  intro tm
  induction tm with
  | nil => intro k p hp; cases hp
  | cons q rest ih =>
    intro k p hp
    obtain ⟨ip, host⟩ := q
    simp only [icmpSamples] at hp
    rcases List.mem_cons.mp hp with rfl | hp
    · simp
    · simp only [List.map_cons, List.mem_cons]
      exact Or.inr (ih (k + 1) p hp)

lemma collectHosts_length (tm : List (Ip × Host)) :
    ∀ (samples : List HostScanProgress),
      (∀ p ∈ samples, ∃ host, mapGet tm p.ip_addr = some host) →
      (collectHosts tm samples).1.length + (collectHosts tm samples).2.length =
        samples.length := by
  intro samples
  induction samples with
  | nil => intro _; rfl
  | cons p ps ih =>
    intro hlook
    obtain ⟨host, hh⟩ := hlook p (by simp)
    have hrest := ih (fun q hq => hlook q (by simp [hq]))
    cases hst : p.state with
    | Alive =>
      simp only [collectHosts, hst, hh, List.length_cons]
      omega
    | Unreachable =>
      simp only [collectHosts, hst, hh, List.length_cons]
      omega

/-- C9 — For every completed host scan, each distinct resolved target IP
contributes exactly one entry to the final report, either to the alive list
or to the unreachable list: `|alive| + |unreachable| = total`, and `total`
is the number of distinct resolved target IPs. -/
theorem host_scan_partition (run_id : String) (env : HostScanEnv) (hosts : List Host)
    (tmo cnt : Nat) (report : HostScanReport)
    (h : host_scan run_id env hosts tmo cnt = .ok report) :
    report.alive.length + report.unreachable.length = report.total ∧
      report.total = (dedupFirst (hosts.map (·.ip))).length := by
  have main : ∀ (b4 b6 : Bool),
      (collectHosts (collectMap hosts)
          (icmpSamples env b4 b6 tmo cnt (collectMap hosts).length
            (collectMap hosts) 0)).1.length +
        (collectHosts (collectMap hosts)
          (icmpSamples env b4 b6 tmo cnt (collectMap hosts).length
            (collectMap hosts) 0)).2.length =
        (collectMap hosts).length := by
    intro b4 b6
    have hlook : ∀ p ∈ icmpSamples env b4 b6 tmo cnt (collectMap hosts).length
        (collectMap hosts) 0,
        ∃ host, mapGet (collectMap hosts) p.ip_addr = some host :=
      fun p hp => mapGet_of_mem_keys (collectMap hosts) p.ip_addr
        (icmpSamples_ips env b4 b6 tmo cnt (collectMap hosts).length
          (collectMap hosts) 0 p hp)
    have h1 := collectHosts_length (collectMap hosts) _ hlook
    have h2 := icmpSamples_length env b4 b6 tmo cnt
      (collectMap hosts).length (collectMap hosts) 0
    rw [h1, h2]
  have htot : (collectMap hosts).length = (dedupFirst (hosts.map (·.ip))).length := by
    calc (collectMap hosts).length
        = ((collectMap hosts).map (·.1)).length := (List.length_map _ _).symm
      _ = (dedupFirst (hosts.map (·.ip))).length := by rw [collectMap_keys]
  simp only [host_scan] at h
  split at h
  · exact Except.noConfusion h
  · split at h
    · exact Except.noConfusion h
    · rw [Except.ok.injEq] at h
      subst h
      exact ⟨main _ _, htot⟩

/-- Witness for C9: one target, probe answered, report `.ok` computed by
evaluation. -/
theorem host_scan_partition_witness :
    (HostScanReport.mk "r" [(⟨Ip.v4 1, none⟩, 5)] [] 1).alive.length +
        (HostScanReport.mk "r" [(⟨Ip.v4 1, none⟩, 5)] [] 1).unreachable.length =
      (HostScanReport.mk "r" [(⟨Ip.v4 1, none⟩, 5)] [] 1).total ∧
    (HostScanReport.mk "r" [(⟨Ip.v4 1, none⟩, 5)] [] 1).total =
      (dedupFirst (([⟨Ip.v4 1, none⟩] : List Host).map (·.ip))).length :=
  host_scan_partition "r" ⟨.ok (), .ok (), fun _ _ => .reply 5⟩
    [⟨Ip.v4 1, none⟩] 100 1 (HostScanReport.mk "r" [(⟨Ip.v4 1, none⟩, 5)] [] 1) rfl

/-! ## Target resolver — `net/dns/mod.rs::resolve_hosts` -/

/-- First pass of `resolve_hosts` (dns/mod.rs lines 72–86): trim each input,
drop empties, emit IP literals as `Host { ip, hostname: None }` deduplicated
against the `seen` set (first occurrence wins), and queue the remaining
entries as hostnames.  `parseIp` is `str::parse::<IpAddr>`.  Returns
`(out, seen, hostnames)`. -/
def phase1 (trim : String → String) (parseIp : String → Option Ip) :
    List String → List Ip → List Host × List Ip × List String
  | [], seen => ([], seen, [])
  | s :: rest, seen =>
    let t := trim s
    if t.isEmpty then phase1 trim parseIp rest seen
    else
      match parseIp t with
      | some ip =>
        if ip ∈ seen then phase1 trim parseIp rest seen
        else
          let r := phase1 trim parseIp rest (ip :: seen)
          (⟨ip, none⟩ :: r.1, r.2.1, r.2.2)
      | none =>
        let r := phase1 trim parseIp rest seen
        (r.1, r.2.1, t :: r.2.2)

/-- Inner loop of the second pass (dns/mod.rs lines 97–104): push every
not-yet-seen IP a hostname resolved to, tagged with that hostname. -/
def addIps (hn : String) : List Ip → List Ip → List Host × List Ip
  | [], seen => ([], seen)
  | ip :: ips, seen =>
    if ip ∈ seen then addIps hn ips seen
    else
      let r := addIps hn ips (ip :: seen)
      (⟨ip, some hn⟩ :: r.1, r.2)

/-- Second pass of `resolve_hosts` (dns/mod.rs lines 88–105): resolve each
queued hostname (`dns hn` is `lookup_ip(hn).unwrap_or_default()`, empty on
failure) and collect its fresh IPs.  The `buffer_unordered` stream is
determinised to input order. -/
def phase2 (dns : String → List Ip) : List String → List Ip → List Host × List Ip
  | [], seen => ([], seen)
  | hn :: rest, seen =>
    let r1 := addIps hn (dns hn) seen
    let r2 := phase2 dns rest r1.2
    (r1.1 ++ r2.1, r2.2)

/-- Model of `resolve_hosts` (dns/mod.rs lines 65–108): the literal pass followed by
the DNS pass over the shared seen-set. -/
def resolve_hosts (trim : String → String) (parseIp : String → Option Ip)
    (dns : String → List Ip) (inputs : List String) : List Host :=
  let p1 := phase1 trim parseIp inputs []
  p1.1 ++ (phase2 dns p1.2.2 p1.2.1).1

/-- The IP literals among the inputs (trimmed, non-empty, parseable), in
input order, duplicates kept: what the claim's "literal IPs" denotes. -/
def literalIps (trim : String → String) (parseIp : String → Option Ip)
    (inputs : List String) : List Ip :=
  inputs.filterMap (fun s =>
    let t := trim s
    if t.isEmpty then none else parseIp t)

/-- The hostname entries among the inputs (trimmed, non-empty, unparseable
as IPs), in input order. -/
def hostnameEntries (trim : String → String) (parseIp : String → Option Ip)
    (inputs : List String) : List String :=
  inputs.filterMap (fun s =>
    let t := trim s
    if t.isEmpty then none
    else
      match parseIp t with
      | some _ => none
      | none => some t)

/-! ### Lemmas about the target resolver -/

lemma mem_dedupFirstAux : ∀ (l seen : List Ip) (x : Ip),
    x ∈ dedupFirstAux l seen ↔ x ∈ l ∧ x ∉ seen := by
  intro l
  induction l with
  | nil => intro seen x; simp [dedupFirstAux]
  | cons ip rest ih =>
    intro seen x
    unfold dedupFirstAux
    by_cases hip : ip ∈ seen
    · rw [if_pos hip, ih]
      simp only [List.mem_cons]
      constructor
      · rintro ⟨hx, hs⟩
        exact ⟨Or.inr hx, hs⟩
      · rintro ⟨hx | hx, hs⟩
        · subst hx; exact absurd hip hs
        · exact ⟨hx, hs⟩
    · rw [if_neg hip]
      simp only [List.mem_cons, ih]
      constructor
      · rintro (rfl | ⟨hx, hs⟩)
        · exact ⟨Or.inl rfl, hip⟩
        · exact ⟨Or.inr hx, fun hc => hs (Or.inr hc)⟩
      · rintro ⟨hx | hx, hs⟩
        · exact Or.inl hx
        · by_cases hxip : x = ip
          · exact Or.inl hxip
          · exact Or.inr ⟨hx, fun hc => by
              rcases hc with hc | hc
              · exact hxip hc
              · exact hs hc⟩

lemma dedupFirstAux_nodup : ∀ (l seen : List Ip), (dedupFirstAux l seen).Nodup := by
  intro l
  induction l with
  | nil => intro seen; simp [dedupFirstAux]
  | cons ip rest ih =>
    intro seen
    unfold dedupFirstAux
    by_cases hip : ip ∈ seen
    · rw [if_pos hip]; exact ih seen
    · rw [if_neg hip]
      refine List.nodup_cons.mpr ⟨?_, ih (ip :: seen)⟩
      intro hc
      exact ((mem_dedupFirstAux rest (ip :: seen) ip).mp hc).2 (List.mem_cons_self ip seen)

lemma phase1_out (trim : String → String) (parseIp : String → Option Ip) : ∀ (inputs : List String)
    (seen : List Ip),
    (phase1 trim parseIp inputs seen).1 =
      (dedupFirstAux (literalIps trim parseIp inputs) seen).map
        (fun ip => { ip := ip, hostname := none }) := by
  intro inputs
  induction inputs with
  | nil => intro seen; rfl
  | cons s rest ih =>
    intro seen
    by_cases ht : (trim s).isEmpty = true
    · simp only [phase1, literalIps, List.filterMap_cons, ht, if_true]
      exact ih seen
    · cases hp : parseIp (trim s) with
      | some ip =>
        by_cases hip : ip ∈ seen
        · simp [phase1, literalIps, List.filterMap_cons, ht, hp, dedupFirstAux, hip, ih]
        · simp [phase1, literalIps, List.filterMap_cons, ht, hp, dedupFirstAux, hip, ih]
      | none =>
        simp [phase1, literalIps, List.filterMap_cons, ht, hp, ih]

lemma phase1_hostnames (trim : String → String) (parseIp : String → Option Ip) : ∀ (inputs : List String)
    (seen : List Ip),
    (phase1 trim parseIp inputs seen).2.2 = hostnameEntries trim parseIp inputs := by
  intro inputs
  induction inputs with
  | nil => intro seen; rfl
  | cons s rest ih =>
    intro seen
    by_cases ht : (trim s).isEmpty = true
    · simp only [phase1, hostnameEntries, List.filterMap_cons, ht, if_true]
      exact ih seen
    · cases hp : parseIp (trim s) with
      | some ip =>
        by_cases hip : ip ∈ seen
        · simp [phase1, hostnameEntries, List.filterMap_cons, ht, hp, hip, ih]
        · simp [phase1, hostnameEntries, List.filterMap_cons, ht, hp, hip, ih]
      | none =>
        simp [phase1, hostnameEntries, List.filterMap_cons, ht, hp, ih]

lemma phase1_seen (trim : String → String) (parseIp : String → Option Ip) : ∀ (inputs : List String)
    (seen : List Ip) (x : Ip),
    x ∈ (phase1 trim parseIp inputs seen).2.1 ↔
      x ∈ seen ∨ x ∈ literalIps trim parseIp inputs := by
  intro inputs
  induction inputs with
  | nil => intro seen x; simp [phase1, literalIps]
  | cons s rest ih =>
    intro seen x
    by_cases ht : (trim s).isEmpty = true
    · simp only [phase1, literalIps, List.filterMap_cons, ht, if_true]
      exact ih seen x
    · cases hp : parseIp (trim s) with
      | some ip =>
        by_cases hip : ip ∈ seen
        · simp [phase1, literalIps, List.filterMap_cons, ht, hp, hip, ih]
          constructor
          · rintro (hs | hl)
            · exact Or.inl hs
            · exact Or.inr (Or.inr hl)
          · rintro (hs | rfl | hl)
            · exact Or.inl hs
            · exact Or.inl hip
            · exact Or.inr hl
        · simp [phase1, literalIps, List.filterMap_cons, ht, hp, hip, ih]
          tauto
      | none =>
        simp [phase1, literalIps, List.filterMap_cons, ht, hp, ih]

lemma addIps_out (hn : String) : ∀ (ips seen : List Ip),
    (addIps hn ips seen).1 =
      (dedupFirstAux ips seen).map (fun ip => { ip := ip, hostname := some hn }) := by
  intro ips
  induction ips with
  | nil => intro seen; rfl
  | cons ip rest ih =>
    intro seen
    unfold addIps dedupFirstAux
    by_cases hip : ip ∈ seen
    · rw [if_pos hip, if_pos hip]
      exact ih seen
    · rw [if_neg hip, if_neg hip]
      dsimp only
      rw [List.map_cons, ih (ip :: seen)]

lemma addIps_seen (hn : String) : ∀ (ips seen : List Ip) (x : Ip),
    x ∈ (addIps hn ips seen).2 ↔ x ∈ seen ∨ x ∈ ips := by
  intro ips
  induction ips with
  | nil => intro seen x; simp [addIps]
  | cons ip rest ih =>
    intro seen x
    unfold addIps
    by_cases hip : ip ∈ seen
    · rw [if_pos hip, ih seen x]
      simp only [List.mem_cons]
      constructor
      · rintro (hs | hr)
        · exact Or.inl hs
        · exact Or.inr (Or.inr hr)
      · rintro (hs | rfl | hr)
        · exact Or.inl hs
        · exact Or.inl hip
        · exact Or.inr hr
    · rw [if_neg hip]
      show x ∈ (addIps hn rest (ip :: seen)).2 ↔ _
      rw [ih (ip :: seen) x]
      simp only [List.mem_cons]
      tauto

lemma addIps_out_ips (hn : String) (ips seen : List Ip) :
    (addIps hn ips seen).1.map (·.ip) = dedupFirstAux ips seen := by
  rw [addIps_out, List.map_map]
  exact List.map_id (dedupFirstAux ips seen)

lemma phase2_ips_mem (dns : String → List Ip) : ∀ (hs : List String)
    (seen : List Ip) (x : Ip),
    x ∈ (phase2 dns hs seen).1.map (·.ip) ↔
      x ∉ seen ∧ ∃ hn ∈ hs, x ∈ dns hn := by
  intro hs
  induction hs with
  | nil => intro seen x; simp [phase2]
  | cons hn rest ih =>
    intro seen x
    simp only [phase2, List.map_append, List.mem_append]
    rw [addIps_out_ips, mem_dedupFirstAux, ih, addIps_seen]
    simp only [List.mem_cons]
    constructor
    · rintro (⟨hd, hs'⟩ | ⟨hns, hn', hmem, hd⟩)
      · exact ⟨hs', hn, Or.inl rfl, hd⟩
      · exact ⟨fun hc => hns (Or.inl hc), hn', Or.inr hmem, hd⟩
    · rintro ⟨hns, hn', hmem | hmem, hd⟩
      · subst hmem
        exact Or.inl ⟨hd, hns⟩
      · by_cases hdn : x ∈ dns hn
        · exact Or.inl ⟨hdn, hns⟩
        · exact Or.inr ⟨fun hc => by
            rcases hc with hc | hc
            · exact hns hc
            · exact hdn hc, hn', hmem, hd⟩

lemma phase2_nodup (dns : String → List Ip) : ∀ (hs : List String) (seen : List Ip),
    ((phase2 dns hs seen).1.map (·.ip)).Nodup := by
  intro hs
  induction hs with
  | nil => intro seen; simp [phase2]
  | cons hn rest ih =>
    intro seen
    simp only [phase2, List.map_append]
    rw [List.nodup_append]
    refine ⟨?_, ih _, ?_⟩
    · rw [addIps_out_ips]
      exact dedupFirstAux_nodup _ _
    · intro x hx hx2
      rw [addIps_out_ips, mem_dedupFirstAux] at hx
      rw [phase2_ips_mem, addIps_seen] at hx2
      exact hx2.1 (Or.inr hx.1)

lemma phase2_elems (dns : String → List Ip) : ∀ (hs : List String) (seen : List Ip),
    ∀ h ∈ (phase2 dns hs seen).1,
      ∃ hn ∈ hs, h.hostname = some hn ∧ h.ip ∈ dns hn := by
  intro hs
  induction hs with
  | nil => intro seen h hh; cases hh
  | cons hn rest ih =>
    intro seen h hh
    simp only [phase2, List.mem_append] at hh
    rcases hh with hh | hh
    · rw [addIps_out] at hh
      obtain ⟨ip, hip, rfl⟩ := List.mem_map.mp hh
      exact ⟨hn, by simp, rfl, ((mem_dedupFirstAux _ _ ip).mp hip).1⟩
    · obtain ⟨hn', hmem, hhost, hdns⟩ := ih _ h hh
      exact ⟨hn', by simp [hmem], hhost, hdns⟩

/-- C6 — For every input list, the resolver's output contains each
distinct IP exactly once with the first occurrence winning: the IP literals
come first, in input order, as Hosts with no hostname; every DNS-derived
Host carries its originating hostname and an IP that hostname resolved to;
empty/whitespace entries and failed resolutions contribute nothing; and the
output IP set is exactly the union of the literal IPs and the DNS-resolved
IPs. -/
theorem resolve_hosts_spec (trim : String → String) (parseIp : String → Option Ip)
    (dns : String → List Ip) (inputs : List String) :
    ((resolve_hosts trim parseIp dns inputs).map (·.ip)).Nodup ∧
    (∃ rest, resolve_hosts trim parseIp dns inputs =
        (dedupFirst (literalIps trim parseIp inputs)).map
          (fun ip => { ip := ip, hostname := none }) ++ rest ∧
        ∀ h ∈ rest, h.hostname ≠ none) ∧
    (∀ h ∈ resolve_hosts trim parseIp dns inputs, ∀ hn, h.hostname = some hn →
      hn ∈ hostnameEntries trim parseIp inputs ∧ h.ip ∈ dns hn) ∧
    (∀ x, x ∈ (resolve_hosts trim parseIp dns inputs).map (·.ip) ↔
      (x ∈ literalIps trim parseIp inputs ∨
        ∃ hn ∈ hostnameEntries trim parseIp inputs, x ∈ dns hn)) := by
  have hout := phase1_out trim parseIp inputs []
  have hhn := phase1_hostnames trim parseIp inputs []
  have hseen : ∀ x, x ∈ (phase1 trim parseIp inputs []).2.1 ↔
      x ∈ literalIps trim parseIp inputs := by
    intro x
    rw [phase1_seen trim parseIp inputs []]
    simp
  have hlitkeys : (phase1 trim parseIp inputs []).1.map (·.ip) =
      dedupFirstAux (literalIps trim parseIp inputs) [] := by
    rw [hout, List.map_map]
    exact List.map_id _
  refine ⟨?_, ?_, ?_, ?_⟩
  · unfold resolve_hosts
    rw [List.map_append, List.nodup_append, hlitkeys]
    refine ⟨dedupFirstAux_nodup _ _, phase2_nodup dns _ _, ?_⟩
    intro x hx hx2
    rw [mem_dedupFirstAux] at hx
    rw [phase2_ips_mem] at hx2
    exact hx2.1 ((hseen x).mpr hx.1)
  · refine ⟨(phase2 dns (phase1 trim parseIp inputs []).2.2 (phase1 trim parseIp inputs []).2.1).1,
      ?_, ?_⟩
    · show (phase1 trim parseIp inputs []).1 ++
          (phase2 dns (phase1 trim parseIp inputs []).2.2
            (phase1 trim parseIp inputs []).2.1).1 = _
      rw [hout]
      rfl
    · intro h hh hnone
      obtain ⟨hn, _, hhost, _⟩ := phase2_elems dns _ _ h hh
      rw [hnone] at hhost
      cases hhost
  · intro h hh hn hhost
    unfold resolve_hosts at hh
    rcases List.mem_append.mp hh with hh | hh
    · rw [hout] at hh
      obtain ⟨ip, _, rfl⟩ := List.mem_map.mp hh
      cases hhost
    · obtain ⟨hn', hmem, hhost', hdns⟩ := phase2_elems dns _ _ h hh
      rw [hhost] at hhost'
      obtain rfl : hn = hn' := by injection hhost'
      rw [hhn] at hmem
      exact ⟨hmem, hdns⟩
  · intro x
    unfold resolve_hosts
    rw [List.map_append, List.mem_append, hlitkeys, mem_dedupFirstAux,
      phase2_ips_mem, hhn]
    have hs := hseen x
    simp only [List.not_mem_nil]
    constructor
    · rintro (⟨hl, -⟩ | ⟨hns, hex⟩)
      · exact Or.inl hl
      · exact Or.inr hex
    · rintro (hl | hex)
      · exact Or.inl ⟨hl, fun hc => hc⟩
      · by_cases hlit : x ∈ literalIps trim parseIp inputs
        · exact Or.inl ⟨hlit, fun hc => hc⟩
        · exact Or.inr ⟨fun hc => hlit ((hseen x).mp hc), hex⟩

/-- Witness for C6: inputs `["9", "a"]` where `"9"` parses as an IP and
`"a"` resolves to that same IP plus a fresh one; the DNS-derived host keeps
its originating hostname and resolved IP. -/
theorem resolve_hosts_spec_witness :
    "a" ∈ hostnameEntries (fun s => if s = " " then "" else s)
        (fun s => if s = "9" then some (.v4 9) else none) ["9", " ", "a"] ∧
      Ip.v6 2 ∈ (fun h => if h = "a" then [Ip.v4 9, Ip.v6 2] else ([] : List Ip)) "a" :=
  (resolve_hosts_spec (fun s => if s = " " then "" else s)
      (fun s => if s = "9" then some (.v4 9) else none)
      (fun h => if h = "a" then [Ip.v4 9, Ip.v6 2] else ([] : List Ip))
      ["9", " ", "a"]).2.2.1
    ⟨Ip.v6 2, some "a"⟩ (by decide) "a" rfl

/-! ## Concurrency tuner — `probe/scan/tuner.rs`

The tuner computes `(base as f32 * os_factor * profile_factor) as usize`
and clamps.  IEEE-754 binary32 values are a subset of the rationals, and
every operation here (int → f32 conversion, two multiplications, each
rounded to nearest-even) is modelled exactly: `roundF32` is binary32
round-to-nearest-even on `ℚ`, and the factor constants are the exact
rational values of the `f32` literals `0.6`, `0.8`, `1.2`, `1.3`, `1.4`.
Every value reaching `roundF32` in this program is ≥ 23 (so normal, far
from subnormals), and values beyond the finite `f32` range only arise for
astronomically large CPU counts, where both the real `f32` overflow to
infinity (whose saturating `as usize` cast is huge) and this model's
un-overflowed huge finite value collapse to the same upper clamp bound. -/

/-- The operating systems the `cfg(target_os)` blocks of tuner.rs
distinguish (lines 66–83 and 91–108). -/
inductive OsKind
  | windows
  | linux
  | macos
  | otherOs
  deriving Repr, DecidableEq

/-- Model of `ScanProfile` (tuner.rs lines 6–10). -/
inductive ScanProfile
  | Conservative
  | Balanced
  | Aggressive
  deriving Repr, DecidableEq

/-- Round a rational to the nearest integer, ties to even — the IEEE-754
default rounding applied to the scaled mantissa. -/
def roundNE (x : ℚ) : ℤ :=
  if x - ⌊x⌋ < 1 / 2 then ⌊x⌋
  else if (1 : ℚ) / 2 < x - ⌊x⌋ then ⌊x⌋ + 1
  else if ⌊x⌋ % 2 = 0 then ⌊x⌋ else ⌊x⌋ + 1

/-- The binary32 exponent of a rational `q ≥ 1`: the `e` with
`2 ^ e ≤ q < 2 ^ (e + 1)`. -/
def f32Exp (q : ℚ) : Nat := Nat.log2 ⌊q⌋.toNat

/-- Binary32 round-to-nearest-even on `ℚ` for `q ≥ 1` (every rounded value
in the tuner is ≥ 23): scale `q` so that its mantissa window `[2^e, 2^(e+1))`
maps onto `[2^23, 2^24)`, round to the nearest (even-on-ties) integer, and
scale back.  Values `< 1` are returned unchanged (unreachable here). -/
def roundF32 (q : ℚ) : ℚ :=
  if q < 1 then q
  else
    let s : ℚ := (2 : ℚ) ^ ((23 : ℤ) - (f32Exp q : ℤ))
    (roundNE (q * s) : ℚ) / s

/-- One `f32` multiplication: exact product, then binary32 rounding. -/
def f32Mul (a b : ℚ) : ℚ := roundF32 (a * b)

/-- `base as f32` (Rust's int → f32 cast rounds to nearest even). -/
def natToF32 (n : Nat) : ℚ := roundF32 (n : ℚ)

/-- Model of `ScanProfile::factor` (tuner.rs lines 27–33): the exact values
of the `f32` literals — `0.6f32 = 10066330/2^24`, `1.0f32 = 1`,
`1.4f32 = 11744051/2^23`. -/
def ScanProfile.factor : ScanProfile → ℚ
  | .Conservative => 10066330 / 2 ^ 24
  | .Balanced => 1
  | .Aggressive => 11744051 / 2 ^ 23

/-- Host-side OS factor (tuner.rs lines 66–83), exact `f32` literal values:
`0.8f32 = 13421773/2^24`, `1.0f32 = 1`, `1.2f32 = 10066330/2^23`. -/
def osFactorHosts : OsKind → ℚ
  | .windows => 13421773 / 2 ^ 24
  | .linux => 1
  | .macos => 10066330 / 2 ^ 23
  | .otherOs => 1

/-- Port-side OS factor (tuner.rs lines 91–108), exact `f32` literal values:
`0.6f32 = 10066330/2^24`, `1.0f32 = 1`, `1.3f32 = 10905190/2^23`. -/
def osFactorPorts : OsKind → ℚ
  | .windows => 10066330 / 2 ^ 24
  | .linux => 1
  | .macos => 10905190 / 2 ^ 23
  | .otherOs => 1

/-- Rust's `Ord::clamp(lo, hi)`: below `lo` → `lo`, above `hi` → `hi`,
otherwise the value. -/
def rustClamp (x lo hi : Nat) : Nat :=
  if x < lo then lo else if x > hi then hi else x

/-- Model of `calc_scan_concurrency` (tuner.rs lines 60–114):
`cpu = num_cpus.max(1)`,
`hosts = ((64*cpu) as f32 * os_factor_hosts * profile.factor()) as usize`
clamped to `[128, 2048]`, and the analogous ports computation clamped to
`[300, 3000]`; the `as usize` cast truncates the (positive) value. -/
def calc_scan_concurrency (os : OsKind) (cpus : Nat) (profile : ScanProfile) :
    Nat × Nat :=
  let cpu := max cpus 1
  let base_hosts := 64 * cpu
  let hostsF := f32Mul (f32Mul (natToF32 base_hosts) (osFactorHosts os))
    profile.factor
  let hosts := rustClamp (⌊hostsF⌋.toNat) 128 2048
  let base_ports := 200 * cpu
  let portsF := f32Mul (f32Mul (natToF32 base_ports) (osFactorPorts os))
    profile.factor
  let ports := rustClamp (⌊portsF⌋.toNat) 300 3000
  (hosts, ports)

/-! ### Rounding lemmas -/

lemma floor_le_roundNE (x : ℚ) : ⌊x⌋ ≤ roundNE x := by
  unfold roundNE
  split_ifs <;> omega

lemma roundNE_le_floor_add_one (x : ℚ) : roundNE x ≤ ⌊x⌋ + 1 := by
  unfold roundNE
  split_ifs <;> omega

lemma roundNE_mono {x y : ℚ} (h : x ≤ y) : roundNE x ≤ roundNE y := by
  rcases lt_or_eq_of_le (Int.floor_le_floor h) with hlt | heq
  · have h1 := roundNE_le_floor_add_one x
    have h2 := floor_le_roundNE y
    omega
  · have hr : x - (⌊x⌋ : ℚ) ≤ y - (⌊x⌋ : ℚ) := by linarith
    unfold roundNE
    rw [← heq]
    split_ifs <;> first | omega | (exfalso; linarith)

lemma f32Exp_pow_le {q : ℚ} (hq : 1 ≤ q) : (2 : ℚ) ^ (f32Exp q) ≤ q := by
  have hfl : (1 : ℤ) ≤ ⌊q⌋ := by
    rw [Int.le_floor]
    exact_mod_cast hq
  have hne : ⌊q⌋.toNat ≠ 0 := by omega
  have h1 : (2 : ℕ) ^ (f32Exp q) ≤ ⌊q⌋.toNat := Nat.log2_self_le hne
  have h2 : ((⌊q⌋.toNat : ℤ) : ℚ) ≤ q := by
    rw [Int.toNat_of_nonneg (by omega)]
    exact Int.floor_le q
  calc (2 : ℚ) ^ (f32Exp q) = (((2 : ℕ) ^ (f32Exp q) : ℕ) : ℚ) := by push_cast; ring
    _ ≤ ((⌊q⌋.toNat : ℕ) : ℚ) := by exact_mod_cast h1
    _ ≤ q := by exact_mod_cast h2

lemma lt_f32Exp_pow {q : ℚ} (hq : 1 ≤ q) : q < (2 : ℚ) ^ (f32Exp q + 1) := by
  have hfl : (1 : ℤ) ≤ ⌊q⌋ := by
    rw [Int.le_floor]
    exact_mod_cast hq
  have h1 : ⌊q⌋.toNat < 2 ^ (f32Exp q + 1) := Nat.lt_log2_self
  have h2 : q < (⌊q⌋ : ℚ) + 1 := Int.lt_floor_add_one q
  have h3 : (⌊q⌋ : ℚ) + 1 ≤ (2 : ℚ) ^ (f32Exp q + 1) := by
    have : (⌊q⌋.toNat : ℤ) + 1 ≤ (2 : ℤ) ^ (f32Exp q + 1) := by exact_mod_cast h1
    rw [Int.toNat_of_nonneg (by omega)] at this
    exact_mod_cast this
  linarith

lemma f32Exp_mono {x y : ℚ} (hx : 1 ≤ x) (hxy : x ≤ y) : f32Exp x ≤ f32Exp y := by
  have hfx : (1 : ℤ) ≤ ⌊x⌋ := by
    rw [Int.le_floor]; exact_mod_cast hx
  have hfy : (1 : ℤ) ≤ ⌊y⌋ := by
    rw [Int.le_floor]; exact_mod_cast (hx.trans hxy)
  have hne : ⌊y⌋.toNat ≠ 0 := by omega
  rw [f32Exp, f32Exp, Nat.le_log2 hne]
  calc 2 ^ Nat.log2 ⌊x⌋.toNat ≤ ⌊x⌋.toNat := Nat.log2_self_le (by omega)
    _ ≤ ⌊y⌋.toNat := by
        have := Int.floor_le_floor hxy
        omega

lemma f32s_pos (e : Nat) : (0 : ℚ) < (2 : ℚ) ^ ((23 : ℤ) - (e : ℤ)) :=
  zpow_pos (by norm_num) _

lemma f32s_mul_pow {e : Nat} :
    (2 : ℚ) ^ (e : ℤ) * (2 : ℚ) ^ ((23 : ℤ) - (e : ℤ)) = (2 : ℚ) ^ (23 : ℤ) := by
  rw [← zpow_add₀ (by norm_num : (2 : ℚ) ≠ 0)]
  norm_num

lemma roundF32_lower {q : ℚ} (hq : 1 ≤ q) : (2 : ℚ) ^ (f32Exp q) ≤ roundF32 q := by
  rw [roundF32, if_neg (not_lt.mpr hq)]
  set e := f32Exp q with he
  set s : ℚ := (2 : ℚ) ^ ((23 : ℤ) - (e : ℤ)) with hs
  have hspos : (0 : ℚ) < s := f32s_pos e
  rw [le_div_iff hspos]
  have hle : (2 : ℚ) ^ (23 : ℤ) ≤ q * s := by
    calc (2 : ℚ) ^ (23 : ℤ) = (2 : ℚ) ^ (e : ℤ) * s := f32s_mul_pow.symm
      _ ≤ q * s := by
          apply mul_le_mul_of_nonneg_right _ hspos.le
          rw [zpow_natCast]
          exact f32Exp_pow_le hq
  have hfl : ((2 : ℤ) ^ 23 : ℤ) ≤ ⌊q * s⌋ := by
    rw [Int.le_floor]
    calc (((2 : ℤ) ^ 23 : ℤ) : ℚ) = (2 : ℚ) ^ (23 : ℤ) := by push_cast; norm_num
      _ ≤ q * s := hle
  have h2 := floor_le_roundNE (q * s)
  calc (2 : ℚ) ^ (e : Nat) * s = (2 : ℚ) ^ (e : ℤ) * s := by
        rw [zpow_natCast]
    _ = (2 : ℚ) ^ (23 : ℤ) := f32s_mul_pow
    _ = (((2 : ℤ) ^ 23 : ℤ) : ℚ) := by push_cast; norm_num
    _ ≤ ((⌊q * s⌋ : ℤ) : ℚ) := by exact_mod_cast hfl
    _ ≤ ((roundNE (q * s) : ℤ) : ℚ) := by exact_mod_cast h2

lemma roundF32_upper {q : ℚ} (hq : 1 ≤ q) :
    roundF32 q ≤ (2 : ℚ) ^ (f32Exp q + 1) := by
  rw [roundF32, if_neg (not_lt.mpr hq)]
  set e := f32Exp q with he
  set s : ℚ := (2 : ℚ) ^ ((23 : ℤ) - (e : ℤ)) with hs
  have hspos : (0 : ℚ) < s := f32s_pos e
  rw [div_le_iff hspos]
  have hlt : q * s < (2 : ℚ) ^ (24 : ℤ) := by
    have h1 : q < (2 : ℚ) ^ (e + 1 : ℕ) := lt_f32Exp_pow hq
    calc q * s < (2 : ℚ) ^ (e + 1 : ℕ) * s := by
          exact mul_lt_mul_of_pos_right h1 hspos
      _ = (2 : ℚ) ^ ((e : ℤ) + 1) * s := by
          rw [← zpow_natCast (2 : ℚ) (e + 1)]
          congr 1
      _ = (2 : ℚ) ^ ((e : ℤ) + 1 + (23 - (e : ℤ))) := by
          rw [hs, ← zpow_add₀ (by norm_num : (2 : ℚ) ≠ 0)]
      _ = (2 : ℚ) ^ (24 : ℤ) := by
          congr 1
          ring
  have hfl : ⌊q * s⌋ < (2 : ℤ) ^ 24 := by
    rw [Int.floor_lt]
    calc q * s < (2 : ℚ) ^ (24 : ℤ) := hlt
      _ = (((2 : ℤ) ^ 24 : ℤ) : ℚ) := by push_cast; norm_num
  have h2 : roundNE (q * s) ≤ (2 : ℤ) ^ 24 := by
    have := roundNE_le_floor_add_one (q * s)
    omega
  calc ((roundNE (q * s) : ℤ) : ℚ) ≤ (((2 : ℤ) ^ 24 : ℤ) : ℚ) := by exact_mod_cast h2
    _ = (2 : ℚ) ^ (24 : ℤ) := by push_cast; norm_num
    _ = (2 : ℚ) ^ ((e : ℤ) + 1 + (23 - (e : ℤ))) := by
        congr 1
        ring
    _ = (2 : ℚ) ^ ((e : ℤ) + 1) * s := by
        rw [hs, ← zpow_add₀ (by norm_num : (2 : ℚ) ≠ 0)]
    _ = (2 : ℚ) ^ (e + 1 : ℕ) * s := by
        rw [← zpow_natCast (2 : ℚ) (e + 1)]
        congr 2

lemma roundF32_nonneg {q : ℚ} (h : 0 ≤ q) : 0 ≤ roundF32 q := by
  by_cases hq : q < 1
  · rw [roundF32, if_pos hq]; exact h
  · push_neg at hq
    have h1 : (0 : ℚ) < (2 : ℚ) ^ (f32Exp q) := by positivity
    linarith [roundF32_lower hq]

lemma roundF32_mono {x y : ℚ} (h : x ≤ y) : roundF32 x ≤ roundF32 y := by
  by_cases hy : y < 1
  · have hx : x < 1 := lt_of_le_of_lt h hy
    rw [roundF32, if_pos hx, roundF32, if_pos hy]
    exact h
  · push_neg at hy
    by_cases hx : x < 1
    · rw [roundF32, if_pos hx]
      have h1 : (1 : ℚ) ≤ (2 : ℚ) ^ (f32Exp y) := one_le_pow₀ (by norm_num)
      linarith [roundF32_lower hy]
    · push_neg at hx
      rcases eq_or_lt_of_le (f32Exp_mono hx h) with heq | hlt
      · rw [roundF32, if_neg (not_lt.mpr hx), roundF32, if_neg (not_lt.mpr hy), ← heq]
        dsimp only
        rw [div_le_div_right (f32s_pos _)]
        exact_mod_cast roundNE_mono
          (mul_le_mul_of_nonneg_right h (f32s_pos (f32Exp x)).le)
      · calc roundF32 x ≤ (2 : ℚ) ^ (f32Exp x + 1) := roundF32_upper hx
          _ ≤ (2 : ℚ) ^ (f32Exp y) := pow_le_pow_right (by norm_num) hlt
          _ ≤ roundF32 y := roundF32_lower hy

lemma rustClamp_eq (x lo hi : Nat) (h : lo ≤ hi) :
    rustClamp x lo hi = min hi (max lo x) := by
  unfold rustClamp
  split_ifs <;> omega

lemma rustClamp_bounds (x lo hi : Nat) (h : lo ≤ hi) :
    lo ≤ rustClamp x lo hi ∧ rustClamp x lo hi ≤ hi := by
  unfold rustClamp
  split_ifs <;> omega

lemma rustClamp_mono (x y lo hi : Nat) (h : lo ≤ hi) (hxy : x ≤ y) :
    rustClamp x lo hi ≤ rustClamp y lo hi := by
  unfold rustClamp
  split_ifs <;> omega

lemma osFactorHosts_nonneg (os : OsKind) : 0 ≤ osFactorHosts os := by
  cases os <;> norm_num [osFactorHosts]

lemma osFactorPorts_nonneg (os : OsKind) : 0 ≤ osFactorPorts os := by
  cases os <;> norm_num [osFactorPorts]

lemma factor_mono_cb : ScanProfile.Conservative.factor ≤ ScanProfile.Balanced.factor := by
  norm_num [ScanProfile.factor]

lemma factor_mono_ba : ScanProfile.Balanced.factor ≤ ScanProfile.Aggressive.factor := by
  norm_num [ScanProfile.factor]

/-- The truncated final `f32` product is monotone in the profile factor. -/
lemma truncF32Mul_profile_mono (A : ℚ) (hA : 0 ≤ A) {p q : ScanProfile}
    (hpq : p.factor ≤ q.factor) :
    ⌊f32Mul A p.factor⌋.toNat ≤ ⌊f32Mul A q.factor⌋.toNat := by
  have h1 : A * p.factor ≤ A * q.factor := mul_le_mul_of_nonneg_left hpq hA
  have h2 : ⌊f32Mul A p.factor⌋ ≤ ⌊f32Mul A q.factor⌋ :=
    Int.floor_le_floor (roundF32_mono h1)
  omega

/-- Pin the binary32 exponent of a concrete rational via the
`2 ^ k ≤ ⌊q⌋ < 2 ^ (k+1)` characterisation (far cheaper than unfolding
`Nat.log2`). -/
lemma f32Exp_eval (q : ℚ) (m k : ℕ) (hm : ⌊q⌋ = (m : ℤ)) (hm0 : m ≠ 0)
    (h1 : 2 ^ k ≤ m) (h2 : m < 2 ^ (k + 1)) : f32Exp q = k := by
  have hle := (Nat.le_log2 (n := m) hm0).mpr h1
  have hlt := (Nat.log2_lt (n := m) hm0).mpr h2
  rw [f32Exp, hm, Int.toNat_natCast]
  omega

/-- C8 counterexample — the claim's exact formula fails on the code: for
macOS, 7 CPUs, balanced profile, the `f32` chain computes
`1400.0 * 1.3f32 = 1819.9998…`, truncating to ports = 1819, while the
claimed real-arithmetic formula `clamp(200·7·1.3·1.0, 300, 3000)` gives
1820. -/
theorem tuner_f32_formula_cex :
    (calc_scan_concurrency .macos 7 .Balanced).2 = 1819 ∧
      rustClamp (⌊(200 * 7 : ℚ) * (13 / 10) * 1⌋.toNat) 300 3000 = 1820 ∧
      (1819 : Nat) ≠ 1820 := by
  have hr1 : roundF32 (1400 : ℚ) = 1400 := by
    rw [roundF32, if_neg (by norm_num)]
    dsimp only
    rw [f32Exp_eval 1400 1400 10 (by norm_num) (by norm_num) (by norm_num) (by norm_num)]
    norm_num [roundNE]
  have hr2 : roundF32 ((1400 : ℚ) * (10905190 / 2 ^ 23)) = 14909439 / 8192 := by
    rw [roundF32, if_neg (by norm_num)]
    dsimp only
    rw [f32Exp_eval ((1400 : ℚ) * (10905190 / 2 ^ 23)) 1819 10 (by norm_num)
      (by norm_num) (by norm_num) (by norm_num)]
    norm_num [roundNE]
  have hr3 : roundF32 ((14909439 : ℚ) / 8192 * 1) = 14909439 / 8192 := by
    rw [roundF32, if_neg (by norm_num)]
    dsimp only
    rw [f32Exp_eval ((14909439 : ℚ) / 8192 * 1) 1819 10 (by norm_num)
      (by norm_num) (by norm_num) (by norm_num)]
    norm_num [roundNE]
  refine ⟨?_, ?_, by decide⟩
  · show rustClamp (⌊f32Mul (f32Mul (natToF32 (200 * max 7 1)) (osFactorPorts .macos))
      ScanProfile.Balanced.factor⌋.toNat) 300 3000 = 1819
    have hb : natToF32 (200 * max 7 1) = 1400 := by
      rw [show 200 * max 7 1 = 1400 by norm_num, natToF32,
        show ((1400 : ℕ) : ℚ) = 1400 by norm_num]
      exact hr1
    rw [hb, show osFactorPorts .macos = (10905190 / 2 ^ 23 : ℚ) from rfl,
      show ScanProfile.Balanced.factor = (1 : ℚ) from rfl]
    simp only [f32Mul]
    rw [hr2, hr3]
    rw [show (⌊(14909439 : ℚ) / 8192⌋ : ℤ) = 1819 by norm_num]
    decide
  · rw [show (⌊(200 * 7 : ℚ) * (13 / 10) * 1⌋ : ℤ) = 1820 by norm_num]
    decide

/-- C8 (amended) — For every OS and CPU count, the tuned concurrency
satisfies `hosts = clamp(trunc(f32((64·cpu) as f32 · os_factor_h) ·f32
profile_factor), 128, 2048)` and the analogous ports equation — the
products computed in binary32 with round-to-nearest-even, so the idealized
real-arithmetic formula can differ by one below — hence always lies within
the clamp bounds, and is component-wise monotone in the profile:
`aggressive ≥ balanced ≥ conservative`. -/
theorem tuner_clamped_monotone (os : OsKind) (cpus : Nat) (profile : ScanProfile) :
    ((calc_scan_concurrency os cpus profile).1 =
        min 2048 (max 128 (⌊f32Mul (f32Mul (natToF32 (64 * max cpus 1))
          (osFactorHosts os)) profile.factor⌋.toNat)) ∧
      (calc_scan_concurrency os cpus profile).2 =
        min 3000 (max 300 (⌊f32Mul (f32Mul (natToF32 (200 * max cpus 1))
          (osFactorPorts os)) profile.factor⌋.toNat))) ∧
    (128 ≤ (calc_scan_concurrency os cpus profile).1 ∧
      (calc_scan_concurrency os cpus profile).1 ≤ 2048 ∧
      300 ≤ (calc_scan_concurrency os cpus profile).2 ∧
      (calc_scan_concurrency os cpus profile).2 ≤ 3000) ∧
    ((calc_scan_concurrency os cpus .Conservative).1 ≤
        (calc_scan_concurrency os cpus .Balanced).1 ∧
      (calc_scan_concurrency os cpus .Balanced).1 ≤
        (calc_scan_concurrency os cpus .Aggressive).1 ∧
      (calc_scan_concurrency os cpus .Conservative).2 ≤
        (calc_scan_concurrency os cpus .Balanced).2 ∧
      (calc_scan_concurrency os cpus .Balanced).2 ≤
        (calc_scan_concurrency os cpus .Aggressive).2) := by
  have hAh : 0 ≤ f32Mul (natToF32 (64 * max cpus 1)) (osFactorHosts os) :=
    roundF32_nonneg (mul_nonneg (roundF32_nonneg (by positivity))
      (osFactorHosts_nonneg os))
  have hAp : 0 ≤ f32Mul (natToF32 (200 * max cpus 1)) (osFactorPorts os) :=
    roundF32_nonneg (mul_nonneg (roundF32_nonneg (by positivity))
      (osFactorPorts_nonneg os))
  refine ⟨⟨?_, ?_⟩, ⟨?_, ?_, ?_, ?_⟩, ?_, ?_, ?_, ?_⟩
  · exact rustClamp_eq _ 128 2048 (by omega)
  · exact rustClamp_eq _ 300 3000 (by omega)
  · exact (rustClamp_bounds _ 128 2048 (by omega)).1
  · exact (rustClamp_bounds _ 128 2048 (by omega)).2
  · exact (rustClamp_bounds _ 300 3000 (by omega)).1
  · exact (rustClamp_bounds _ 300 3000 (by omega)).2
  · exact rustClamp_mono _ _ 128 2048 (by omega)
      (truncF32Mul_profile_mono _ hAh factor_mono_cb)
  · exact rustClamp_mono _ _ 128 2048 (by omega)
      (truncF32Mul_profile_mono _ hAh factor_mono_ba)
  · exact rustClamp_mono _ _ 300 3000 (by omega)
      (truncF32Mul_profile_mono _ hAp factor_mono_cb)
  · exact rustClamp_mono _ _ 300 3000 (by omega)
      (truncF32Mul_profile_mono _ hAp factor_mono_ba)

end Netpulse
